import Mathlib

/-!
Verification of the node-llama-cpp provider adapter.

This development shallowly embeds the provider source
(src/provider.ts, src/openai-handler.ts) in Lean 4 and settles the
specification claims against it.  JavaScript values that the code
inspects dynamically (tool parameters, tool outputs) are modelled by a
JSON value type with JS truthiness; machine concerns (UUIDs) are
modelled by a fresh-id counter.  The external model runtime
(node-llama-cpp) is modelled by the trace of callback invocations it
performs during one generation call, which is precisely the interface
the adapter consumes.
-/

namespace NodeLlamaCpp

/-- JSON-like JavaScript values, as passed around for tool parameters and
tool outputs.  Numbers are modelled as integers (the code never computes
with them, it only stores and serializes them). -/
inductive JsValue where
  | null
  | bool (b : Bool)
  | num (n : Int)
  | str (s : String)
  | arr (elems : List JsValue)
  | obj (fields : List (String × JsValue))

/-- JavaScript truthiness of a value, as used by the `!r.result` check in
`convertToLlamaChatHistory` (src/provider.ts line 324). -/
def JsValue.truthy : JsValue → Bool
  | .null => false
  | .bool b => b
  | .num n => n != 0
  | .str s => s != ""
  | .arr _ => true
  | .obj _ => true

/-- Escaping of string content inside a JSON serialization (the part of
the JSON.stringify builtin the adapter relies on). -/
def jsonEscape (s : String) : String :=
  s.foldl
    (fun acc c =>
      if c = '"' then acc ++ "\\\""
      else if c = '\\' then acc ++ "\\\\"
      else acc.push c)
    ""

mutual

/-- JSON.stringify, the serialization applied to tool parameters before
they are placed on the `tool-call` stream event (src/provider.ts
line 584). -/
def jsonStringify : JsValue → String
  | .null => "null"
  | .bool b => cond b "true" "false"
  | .num n => toString n
  | .str s => "\"" ++ jsonEscape s ++ "\""
  | .arr xs => "[" ++ jsonStringifyArr xs ++ "]"
  | .obj fs => "\x7b" ++ jsonStringifyObj fs ++ "\x7d"

/-- Serialization of a JSON array body. -/
def jsonStringifyArr : List JsValue → String
  | [] => ""
  | [x] => jsonStringify x
  | x :: y :: xs => jsonStringify x ++ "," ++ jsonStringifyArr (y :: xs)

/-- Serialization of a JSON object body. -/
def jsonStringifyObj : List (String × JsValue) → String
  | [] => ""
  | [(k, v)] => "\"" ++ jsonEscape k ++ "\":" ++ jsonStringify v
  | (k, v) :: f :: fs =>
      "\"" ++ jsonEscape k ++ "\":" ++ jsonStringify v ++ ","
        ++ jsonStringifyObj (f :: fs)

end

/-- A tool-result output as delivered by the AI SDK: an object with a
`type` tag and a `value` payload.  The code checks
`part.output.type === "json"` and either unwraps `.value` or attaches the
whole output object (src/provider.ts lines 328-331). -/
structure ToolOutput where
  otype : String
  value : JsValue

/-- The JS object a `ToolOutput` denotes, used when the code attaches the
output as-is rather than unwrapping it. -/
def ToolOutput.toJs (o : ToolOutput) : JsValue :=
  .obj [("type", .str o.otype), ("value", o.value)]

/-- Message content parts, the union of the part shapes the provider code
inspects (text, reasoning, tool-call, tool-result; `file` stands for any
other part kind, which every branch ignores). -/
inductive Part where
  | text (t : String)
  | reasoning (t : String)
  | toolCall (toolName : String) (input : JsValue)
  | toolResult (toolName : String) (output : ToolOutput)
  | file

/-- Content of a message whose role the adapter does not know statically:
either a plain string or an array of parts (the code probes with
`Array.isArray` / `typeof`). -/
inductive MessageContent where
  | str (s : String)
  | parts (ps : List Part)

/-- An AI SDK prompt message.  The typed roles carry the content shape
the `LanguageModelV2Prompt` type guarantees (system: string, the rest:
part arrays); `other` models a message of an unsupported role, which the
code warns about and skips. -/
inductive Message where
  | system (content : String)
  | user (content : List Part)
  | assistant (content : List Part)
  | tool (content : List Part)
  | other (role : String) (content : MessageContent)

/-- A segment of a native model-response turn.  `textSeg` models the
plain strings the assistant branch pushes; `functionCall` carries an
optional result, absent until a tool result is attached. -/
inductive Segment where
  | textSeg (t : String)
  | thought (t : String)
  | functionCall (name : String) (params : JsValue) (result : Option JsValue)

/-- A native chat-history item in node-llama-cpp format, as produced by
`convertToLlamaChatHistory`. -/
inductive HistoryItem where
  | system (text : String)
  | user (text : String)
  | model (response : List Segment)

/-- Concatenation of the text parts of a part list; non-text parts
contribute the empty string (the `.map(...).join("")` pattern of
src/provider.ts lines 229-231 and 261-263). -/
def concatTextParts (ps : List Part) : String :=
  String.join (ps.map fun p =>
    match p with
    | .text t => t
    | _ => "")

/-- The segment (if any) an assistant part contributes to the model
response (src/provider.ts lines 279-300): text parts as plain strings,
reasoning parts as thought segments, tool calls as function calls with
no result; other parts are skipped. -/
def assistantSegment : Part → Option Segment
  | .text t => some (.textSeg t)
  | .reasoning t => some (.thought t)
  | .toolCall name input => some (.functionCall name input none)
  | _ => none

/-- The inner `find` predicate of the tool branch (src/provider.ts
lines 320-325): a function-call segment with matching name whose
`result` property is falsy (absent, or present but a falsy value). -/
def segIsPendingCall (name : String) : Segment → Bool
  | .functionCall n _ r =>
      n = name && !(match r with
        | none => false
        | some v => v.truthy)
  | _ => false

/-- Setting the `result` property of a function-call segment. -/
def setResult (v : JsValue) : Segment → Segment
  | .functionCall n p _ => .functionCall n p (some v)
  | s => s

/-- Mutation performed through the inner `find`: the first matching
pending function call in the response gets the result; if none matches,
the response is unchanged. -/
def updateFirstSeg (name : String) (v : JsValue) : List Segment → List Segment
  | [] => []
  | s :: ss =>
      if segIsPendingCall name s then setResult v s :: ss
      else s :: updateFirstSeg name v ss

/-- The value actually attached: a typed JSON output is unwrapped to its
raw value, every other output is attached as the whole output object
(src/provider.ts lines 328-331). -/
def unwrapOutput (o : ToolOutput) : JsValue :=
  if o.otype = "json" then o.value else o.toJs

/-- Whether a history item is a model-response turn. -/
def isModelItem : HistoryItem → Bool
  | .model _ => true
  | _ => false

/-- Applying `f` to the response of the last model turn of the history,
the effect of `history.slice().reverse().find((h) => h.type === "model")`
followed by mutation through the reference (src/provider.ts
lines 313-316).  If no model turn exists, the history is unchanged. -/
def updateLastModel (f : List Segment → List Segment) :
    List HistoryItem → List HistoryItem
  | [] => []
  | x :: xs =>
      if xs.any isModelItem then x :: updateLastModel f xs
      else
        match x with
        | .model segs => .model (f segs) :: xs
        | _ => x :: xs

/-- Processing of one tool-result part (src/provider.ts lines 310-334):
locate the last model turn and set the first matching pending function
call inside it to the unwrapped output. -/
def attachResult (name : String) (out : ToolOutput)
    (history : List HistoryItem) : List HistoryItem :=
  updateLastModel (updateFirstSeg name (unwrapOutput out)) history

/-- Processing of one part of a tool message: tool-result parts are
attached, anything else is ignored (src/provider.ts lines 309-335). -/
def toolStep (h : List HistoryItem) (p : Part) : List HistoryItem :=
  match p with
  | .toolResult name out => attachResult name out h
  | _ => h

/-- One iteration of the message loop of `convertToLlamaChatHistory`
(src/provider.ts lines 246-342). -/
def convertStep (history : List HistoryItem) (message : Message) :
    List HistoryItem :=
  match message with
  | .system s => history ++ [.system s]
  | .user ps => history ++ [.user (concatTextParts ps)]
  | .assistant ps => history ++ [.model (ps.filterMap assistantSegment)]
  | .tool ps => ps.foldl toolStep history
  | .other _ _ => history

/-- Whether the history contains a function-call segment that the code
would still treat as pending for the given tool name (matching name,
result absent or falsy). -/
def historyHasPending (name : String) (h : List HistoryItem) : Bool :=
  h.any fun item =>
    match item with
    | .model segs => segs.any (segIsPendingCall name)
    | _ => false

/-- The History Translator: AI SDK prompt messages to node-llama-cpp
chat history (src/provider.ts lines 243-345). -/
def convertToLlamaChatHistory (prompt : List Message) : List HistoryItem :=
  prompt.foldl convertStep []

/-- Text extraction from the final prompt message (src/provider.ts
lines 216-237): empty for an empty prompt; for array content the
concatenation of its text parts; for string content the string itself. -/
def extractPromptText (prompt : List Message) : String :=
  match prompt.getLast? with
  | none => ""
  | some (.system s) => s
  | some (.user ps) => concatTextParts ps
  | some (.assistant ps) => concatTextParts ps
  | some (.tool ps) => concatTextParts ps
  | some (.other _ (.parts ps)) => concatTextParts ps
  | some (.other _ (.str s)) => s

/-- Whether a part is a tool-result part. -/
def partIsToolResult : Part → Bool
  | .toolResult _ _ => true
  | _ => false

/-- The per-message test of the `hasToolResults` probe (src/provider.ts
lines 517-522): role tool, or array content containing a tool-result
part. -/
def messageHasToolResult : Message → Bool
  | .tool _ => true
  | .user ps => ps.any partIsToolResult
  | .assistant ps => ps.any partIsToolResult
  | .system _ => false
  | .other _ (.parts ps) => ps.any partIsToolResult
  | .other _ (.str _) => false

/-- `hasToolResults` of src/provider.ts lines 517-522. -/
def hasToolResults (prompt : List Message) : Bool :=
  prompt.any messageHasToolResult

/-- What the streaming entry point decides before issuing the generation
call: the history installed on the session (if any) and the prompt
string passed to `promptWithMeta`. -/
structure StreamSetup where
  installedHistory : Option (List HistoryItem)
  promptText : String

/-- The history-installation and prompt-derivation phase of `doStream`
(src/provider.ts lines 514-536). -/
def doStreamSetup (prompt : List Message) : StreamSetup :=
  let htr := hasToolResults prompt
  { installedHistory :=
      if decide (1 < prompt.length) || htr then
        some (convertToLlamaChatHistory prompt)
      else none
    promptText := if htr then "" else extractPromptText prompt }

/-- The corresponding phase of `doGenerate` (src/provider.ts
lines 395-404): the prompt text is always extracted from the final
message and no history is ever installed on the session. -/
def doGenerateSetup (prompt : List Message) : StreamSetup :=
  { installedHistory := none
    promptText := extractPromptText prompt }

/-! ## The generation run, modelled as a callback trace

`session.promptWithMeta` is an external collaborator.  During one call
it invokes, in some order, the `onTextChunk` callback, the
`onResponseChunk` callback, and the handlers of the function table; then
the call either resolves or rejects.  A run of the runtime is therefore
modelled by the ordered list of callback invocations followed by the
terminal outcome. -/

/-- One callback invocation performed by the runtime during generation. -/
inductive RtEvent where
  | textChunk (chunk : String)
  | thoughtChunk (hasStart hasEnd : Bool) (text : String)
  | otherChunk
  | toolInvoke (name : String) (params : JsValue)

/-- The terminal outcome of the `promptWithMeta` call: it resolves with a
response text, or it rejects with an error. -/
inductive RtResult where
  | success (finalText : String)
  | failure (err : String)

/-- A complete runtime trace for one generation call. -/
structure RtTrace where
  events : List RtEvent
  result : RtResult

/-- Stream parts emitted by `doStream`.  Ids stand for the UUID strings
of the code: id 0 is the request text id, id 1 the request reasoning id,
and each tool call draws the next unused id, which models the freshness
of `randomUUID()`. -/
inductive StreamEvent where
  | textStart (id : Nat)
  | textDelta (id : Nat) (delta : String)
  | textEnd (id : Nat)
  | reasoningStart (id : Nat)
  | reasoningDelta (id : Nat) (delta : String)
  | reasoningEnd (id : Nat)
  | toolCall (callId : Nat) (toolName : String) (input : String)
  | finish (reason : String)

/-- The text-stream id of the request (src/provider.ts line 544). -/
def textId : Nat := 0

/-- The reasoning-stream id of the request (src/provider.ts line 545). -/
def reasoningId : Nat := 1

/-- The mutable state of the `start` closure of the stream
(src/provider.ts lines 538-551): the two text flags, the tool-abort
flag, the fresh-id supply, and the events enqueued so far. -/
structure StreamState where
  textStartSent : Bool
  textEndSent : Bool
  toolCallAborted : Bool
  nextCallId : Nat
  events : List StreamEvent

/-- The state at the beginning of the stream: no flags set, ids 0 and 1
reserved for the text and reasoning streams. -/
def initStreamState : StreamState :=
  { textStartSent := false
    textEndSent := false
    toolCallAborted := false
    nextCallId := 2
    events := [] }

/-- The reaction of the stream closure to one runtime callback:
`onTextChunk` (src/provider.ts lines 602-617), `onResponseChunk`
(lines 619-644), and the Tool Bridge handler routed through `onToolCall`
(lines 563-600). -/
def stepEvent (s : StreamState) (e : RtEvent) : StreamState :=
  match e with
  | .textChunk c =>
      if c = "" then s
      else
        let s1 :=
          if s.textStartSent then s
          else { s with events := s.events ++ [.textStart textId], textStartSent := true }
        { s1 with events := s1.events ++ [.textDelta textId c] }
  | .thoughtChunk hs he t =>
      let s1 :=
        if hs then { s with events := s.events ++ [.reasoningStart reasoningId] } else s
      let s2 :=
        if he then { s1 with events := s1.events ++ [.reasoningEnd reasoningId] } else s1
      if t = "" then s2
      else { s2 with events := s2.events ++ [.reasoningDelta reasoningId t] }
  | .otherChunk => s
  | .toolInvoke name params =>
      let s1 :=
        if s.textStartSent && !s.textEndSent then
          { s with events := s.events ++ [.textEnd textId], textEndSent := true }
        else s
      { s1 with
        events := s1.events ++
          [.toolCall s1.nextCallId name (jsonStringify params), .finish "tool-calls"]
        nextCallId := s1.nextCallId + 1
        toolCallAborted := true }

/-- How the underlying `ReadableStream` terminates. -/
inductive StreamOutcome where
  | closed
  | errored (err : String)

/-- The full event sequence and termination of one `doStream` run over a
given runtime trace (src/provider.ts lines 547-687): fold the callbacks,
then apply the completion logic (lines 647-685) to the terminal
outcome. -/
def doStreamEvents (tr : RtTrace) : List StreamEvent × StreamOutcome :=
  let s := tr.events.foldl stepEvent initStreamState
  match tr.result with
  | .success _ =>
      if s.toolCallAborted then (s.events, .closed)
      else
        let s1 :=
          if s.textStartSent && !s.textEndSent then
            { s with events := s.events ++ [.textEnd textId], textEndSent := true }
          else s
        (s1.events ++ [.finish "stop"], .closed)
  | .failure err =>
      if s.toolCallAborted then (s.events, .closed)
      else (s.events, .errored err)

/-- Whether a runtime callback is a tool-handler invocation. -/
def rtIsToolInvoke : RtEvent → Bool
  | .toolInvoke _ _ => true
  | _ => false

/-- Admissibility of a callback list under the abort-on-first-call
policy: the wrapped handler signals the cancellation token and
`stopOnAbortSignal` stops the generation, so no further callback follows
a tool invocation. -/
def noEventAfterTool : List RtEvent → Bool
  | [] => true
  | e :: rest => if rtIsToolInvoke e then rest.isEmpty else noEventAfterTool rest

/-- Well-formed thought sequencing from the runtime, threading the
open/closed state of the current thought segment: while no segment is
open only a chunk with the start marker (and no end marker) is sent;
while one is open either a markerless text fragment or an end marker
carrying no text is sent.  Non-thought callbacks are unconstrained. -/
def thoughtOk : Bool → List RtEvent → Bool
  | _, [] => true
  | isOpen, e :: rest =>
      match e with
      | .thoughtChunk hs he t =>
          if isOpen then
            if !hs && !he then thoughtOk true rest
            else if !hs && he && t = "" then thoughtOk false rest
            else false
          else
            if hs && !he then thoughtOk true rest
            else false
      | _ => thoughtOk isOpen rest

/-- The id carried by a start/delta/end stream event. -/
def evId : StreamEvent → Option Nat
  | .textStart i => some i
  | .textDelta i _ => some i
  | .textEnd i => some i
  | .reasoningStart i => some i
  | .reasoningDelta i _ => some i
  | .reasoningEnd i => some i
  | _ => none

/-- Whether an event opens a stream. -/
def isStartEv : StreamEvent → Bool
  | .textStart _ => true
  | .reasoningStart _ => true
  | _ => false

/-- Whether an event is a delta. -/
def isDeltaEv : StreamEvent → Bool
  | .textDelta _ _ => true
  | .reasoningDelta _ _ => true
  | _ => false

/-- Whether an event closes a stream. -/
def isEndEv : StreamEvent → Bool
  | .textEnd _ => true
  | .reasoningEnd _ => true
  | _ => false

/-- Text lifecycle events. -/
def isTextEv : StreamEvent → Bool
  | .textStart _ => true
  | .textDelta _ _ => true
  | .textEnd _ => true
  | _ => false

/-- Reasoning lifecycle events. -/
def isReasoningEv : StreamEvent → Bool
  | .reasoningStart _ => true
  | .reasoningDelta _ _ => true
  | .reasoningEnd _ => true
  | _ => false

/-- Whether an event is a text-start. -/
def isTextStartEv : StreamEvent → Bool
  | .textStart _ => true
  | _ => false

/-- Whether an event is a text-end. -/
def isTextEndEv : StreamEvent → Bool
  | .textEnd _ => true
  | _ => false

/-- Whether an event is a tool-call. -/
def isToolCallEv : StreamEvent → Bool
  | .toolCall _ _ _ => true
  | _ => false

/-- Whether an event is a finish. -/
def isFinishEv : StreamEvent → Bool
  | .finish _ => true
  | _ => false

/-- Every lifecycle event carries the id reserved for its kind: text
events carry the text id and reasoning events the reasoning id. -/
def idOk (e : StreamEvent) : Bool :=
  (!isTextEv e || (evId e == some textId)) &&
    (!isReasoningEv e || (evId e == some reasoningId))

/-- Bracket-checking automaton for one id: from a closed state only a
start is accepted; from an open state a delta keeps it open and an end
closes it.  Returns the final open/closed state when the whole sequence
is accepted. -/
def brkRun : Bool → List StreamEvent → Option Bool
  | st, [] => some st
  | false, e :: rest => if isStartEv e then brkRun true rest else none
  | true, e :: rest =>
      if isDeltaEv e then brkRun true rest
      else if isEndEv e then brkRun false rest
      else none

/-- Projection of an event sequence onto the lifecycle events of one
stream id. -/
def projId (i : Nat) (evs : List StreamEvent) : List StreamEvent :=
  evs.filter (fun e => evId e == some i)

/-- Whether the runtime produced no text fragment during the run. -/
def noTextProduced (evs : List RtEvent) : Bool :=
  evs.all (fun e =>
    match e with
    | .textChunk c => c = ""
    | _ => true)

/-- An event that the stream closure ignores entirely (an empty text
fragment or a non-thought response chunk). -/
def rtIsSilent : RtEvent → Bool
  | .textChunk c => c = ""
  | .otherChunk => true
  | _ => false

/-! ## The non-streaming variant (`doGenerate`) -/

/-- The mutable state of `doGenerate` (src/provider.ts lines 406-414):
the tool calls recorded by the wrapped handlers, with their generated
call ids, plus the fresh-id supply standing for `randomUUID()`. -/
structure GenState where
  toolCalls : List (String × JsValue × Nat)
  nextCallId : Nat

/-- The reaction of `doGenerate` to one runtime callback: only the tool
handlers mutate its state (src/provider.ts lines 429-453); it registers
no text or segment callbacks. -/
def genStep (s : GenState) (e : RtEvent) : GenState :=
  match e with
  | .toolInvoke name params =>
      { toolCalls := s.toolCalls ++ [(name, params, s.nextCallId)]
        nextCallId := s.nextCallId + 1 }
  | _ => s

/-- A content entry of the non-streaming result. -/
inductive GenContentPart where
  | text (t : String)
  | toolCall (callId : Nat) (toolName : String) (args : JsValue)

/-- The aggregated result of `doGenerate`. -/
structure GenResult where
  content : List GenContentPart
  finishReason : String

/-- The result assembly of `doGenerate` (src/provider.ts lines 471-508)
over a resolved generation call: if any tool call was recorded, the
recorded calls with reason tool-calls, otherwise the response text with
reason stop. -/
def doGenerateOutcome (evs : List RtEvent) (finalText : String) : GenResult :=
  let s := evs.foldl genStep { toolCalls := [], nextCallId := 0 }
  if s.toolCalls.isEmpty then
    { content := [.text finalText], finishReason := "stop" }
  else
    { content := s.toolCalls.map (fun tc => .toolCall tc.2.2 tc.1 tc.2.1)
      finishReason := "tool-calls" }

/-- The fired tool calls of a trace in order, numbered from a given
fresh-id origin; the reference extraction the non-streaming result is
compared against. -/
def firedCallsFrom (cid : Nat) : List RtEvent → List GenContentPart
  | [] => []
  | .toolInvoke n p :: rest => .toolCall cid n p :: firedCallsFrom (cid + 1) rest
  | _ :: rest => firedCallsFrom cid rest

/-! ## The Session Manager

`initialize` (src/provider.ts lines 117-174) performs runtime
acquisition, model resolution, model load, context creation and session
construction, memoizing the in-flight promise.  The external steps are
modelled by an environment giving the outcome of each step for each
attempt; sessions, models and contexts are abstract handles (numbers).
A settled promise is modelled by its memoized outcome, which is what a
repeated `await` of the same promise observes. -/

/-- The outcomes the external world would give one initialization
attempt. -/
structure InitEnv where
  acquireRuntime : Except String Unit
  resolveModel : Except String String
  loadModel : Except String Nat
  createContext : Except String Nat
  sessionOf : Nat → Nat

/-- The fields of the provider relevant to session management, plus
instrumentation: how many times the model-load step ran and how many
initialization attempts were started. -/
structure ProviderState where
  session : Option Nat
  llamaModel : Option Nat
  llamaContext : Option Nat
  initPromise : Option (Except String Unit)
  loadCount : Nat
  attempts : Nat

/-- Construction-time injection (src/provider.ts lines 104-111): a
session, model or context supplied in the config is stored directly. -/
structure ProviderConfig where
  injectedSession : Option Nat
  injectedModel : Option Nat
  injectedContext : Option Nat

/-- The state the constructor leaves behind. -/
def mkProviderState (cfg : ProviderConfig) : ProviderState :=
  { session := cfg.injectedSession
    llamaModel := cfg.injectedModel
    llamaContext := cfg.injectedContext
    initPromise := none
    loadCount := 0
    attempts := 0 }

/-- Context creation (unless a context was injected) and session
construction, the tail of the initialization steps (src/provider.ts
lines 158-170). -/
def stepsAfterModel (env : InitEnv) (st : ProviderState) :
    ProviderState × Except String Unit :=
  match st.llamaContext with
  | none =>
      match env.createContext with
      | .error e => (st, .error e)
      | .ok c =>
          ({ st with llamaContext := some c, session := some (env.sessionOf c) }, .ok ())
  | some c => ({ st with session := some (env.sessionOf c) }, .ok ())

/-- The body of the memoized async closure (src/provider.ts
lines 127-171): acquire the runtime, resolve the model file, load the
model unless already present, create the context unless already present,
construct the session. -/
def runSteps (env : InitEnv) (st : ProviderState) :
    ProviderState × Except String Unit :=
  match env.acquireRuntime with
  | .error e => (st, .error e)
  | .ok _ =>
      match env.resolveModel with
      | .error e => (st, .error e)
      | .ok _path =>
          match st.llamaModel with
          | none =>
              match env.loadModel with
              | .error e => ({ st with loadCount := st.loadCount + 1 }, .error e)
              | .ok m =>
                  stepsAfterModel env
                    { st with llamaModel := some m, loadCount := st.loadCount + 1 }
          | some _ => stepsAfterModel env st

/-- `initialize` (src/provider.ts lines 117-174): return immediately
when a session exists; return the memoized promise when one exists;
otherwise run the steps and memoize the settled outcome, whether
fulfilled or rejected. -/
def initSession (envs : Nat → InitEnv) (st : ProviderState) :
    ProviderState × Except String Unit :=
  if st.session.isSome then (st, .ok ())
  else
    match st.initPromise with
    | some out => (st, out)
    | none =>
        let env := envs st.attempts
        let (st1, out) := runSteps env { st with attempts := st.attempts + 1 }
        ({ st1 with initPromise := some out }, out)

/-- `getSession` (src/provider.ts lines 190-196): await initialization
(rethrowing its error), then return the session or throw if it is still
absent. -/
def getSession (envs : Nat → InitEnv) (st : ProviderState) :
    ProviderState × Except String Nat :=
  match initSession envs st with
  | (st1, .error e) => (st1, .error e)
  | (st1, .ok _) =>
      match st1.session with
      | none => (st1, .error "Session not initialized")
      | some sid => (st1, .ok sid)

/-- The results and final state of a sequence of `getSession` calls. -/
def getSessionTrace (envs : Nat → InitEnv) (st : ProviderState) :
    Nat → List (Except String Nat) × ProviderState
  | 0 => ([], st)
  | n + 1 =>
      let (st1, r) := getSession envs st
      let (rs, stFin) := getSessionTrace envs st1 n
      (r :: rs, stFin)

/-! ## The OpenAI-compatible handlers -/

/-- An OpenAI chat message of the HTTP surface (src/types.ts). -/
structure ChatMessage where
  role : String
  content : String

/-- The prompt `handleChatCompletion` sends to the session
(src/openai-handler.ts lines 44-49): the content of the final message;
an empty messages array would fault, which the HTTP layer rules out by
rejecting it with status 400. -/
def handleChatCompletionPrompt (messages : List ChatMessage) : Option String :=
  (messages.getLast?).map (fun m => m.content)

/-- The prompt `handleStreamingChatCompletion` sends to the session
(src/openai-handler.ts lines 91-98). -/
def handleStreamingChatCompletionPrompt (messages : List ChatMessage) :
    Option String :=
  (messages.getLast?).map (fun m => m.content)

/-- The prompt `handleStreamingChatCompletionWithCallback` sends to the
session (src/openai-handler.ts lines 155-160). -/
def handleStreamingWithCallbackPrompt (messages : List ChatMessage) :
    Option String :=
  (messages.getLast?).map (fun m => m.content)

/-! ## Invariants carried through the stream fold -/

/-- Every finish event is emitted while the text stream is closed: in
the prefix strictly before any finish event, text-start and text-end
events balance. -/
def FinPre (l : List StreamEvent) : Prop :=
  ∀ n r, l.get? n = some (.finish r) →
    (l.take n).countP isTextStartEv = (l.take n).countP isTextEndEv

/-- The invariant relating the stream closure state to the events it has
enqueued, parameterized by whether a thought segment is currently open
on the runtime side. -/
structure Inv (s : StreamState) (topen : Bool) : Prop where
  tb : brkRun false (projId textId s.events) = some (s.textStartSent && !s.textEndSent)
  rb : brkRun false (projId reasoningId s.events) = some topen
  ids : ∀ e ∈ s.events, idOk e = true
  tsCnt : s.events.countP isTextStartEv = (if s.textStartSent then 1 else 0)
  teCnt : s.events.countP isTextEndEv = (if s.textEndSent then 1 else 0)
  endStart : s.textEndSent = true → s.textStartSent = true
  finCnt : s.events.countP isFinishEv = (if s.toolCallAborted then 1 else 0)
  finPre : FinPre s.events
  tcCnt : s.toolCallAborted = false →
    s.events.countP isToolCallEv = 0 ∧ s.nextCallId = 2
  started : s.textStartSent = false → projId textId s.events = []

/-! ## Concrete inputs used by counterexamples and witnesses -/

/-- A conversation whose tool result matches a pending call only in an
earlier model turn: two assistant messages, the first carrying the tool
call, followed by the tool result. -/
def exScanPrompt : List Message :=
  [.assistant [.toolCall "X" (.num 1)],
   .assistant [.text "hi"],
   .tool [.toolResult "X" ⟨"json", .str "res"⟩]]

/-- A conversation delivering two results for the same call, the first
one falsy: the `!r.result` truthiness probe treats the call as pending
again and the second result overwrites the first. -/
def exOverwritePrompt : List Message :=
  [.assistant [.toolCall "X" (.num 1)],
   .tool [.toolResult "X" ⟨"json", .bool false⟩,
          .toolResult "X" ⟨"json", .str "second"⟩]]

/-- A conversation whose final tool message answers a call that already
holds a (falsy) result. -/
def exLatePrompt : List Message :=
  [.assistant [.toolCall "X" (.num 1)],
   .tool [.toolResult "X" ⟨"json", .bool false⟩],
   .tool [.toolResult "X" ⟨"json", .str "late"⟩]]

/-- `exLatePrompt` with the late tool-result part removed. -/
def exLatePromptDropped : List Message :=
  [.assistant [.toolCall "X" (.num 1)],
   .tool [.toolResult "X" ⟨"json", .bool false⟩],
   .tool []]

/-- A continuation conversation: a tool result followed by a user
message. -/
def exContinuationPrompt : List Message :=
  [.tool [.toolResult "X" ⟨"json", .num 1⟩],
   .user [.text "hi"]]

/-- A runtime trace in which the model thinks aloud and then fires a
tool, before any text fragment. -/
def exThoughtThenTool : RtTrace :=
  { events := [.thoughtChunk true false "think", .toolInvoke "X" (.num 7)]
    result := .failure "AbortError" }

/-- An initialization environment in which every step succeeds. -/
def envOk : InitEnv :=
  { acquireRuntime := .ok ()
    resolveModel := .ok "models/m.gguf"
    loadModel := .ok 10
    createContext := .ok 20
    sessionOf := fun c => c + 100 }

/-- An initialization environment whose model-load step fails. -/
def envLoadFail : InitEnv :=
  { acquireRuntime := .ok ()
    resolveModel := .ok "models/m.gguf"
    loadModel := .error "load failed"
    createContext := .ok 20
    sessionOf := fun c => c + 100 }

/-- Step outcomes per attempt: the first attempt fails at model load,
every later attempt would succeed. -/
def envsRetry : Nat → InitEnv :=
  fun i => if i = 0 then envLoadFail else envOk

/-- A provider configuration with nothing injected. -/
def cfgPlain : ProviderConfig :=
  { injectedSession := none, injectedModel := none, injectedContext := none }

/-! # Theorems -/

/-! ## History Translator lemmas -/

/-- When no segment of the response matches as pending, the inner find
mutates nothing. -/
theorem updateFirstSeg_of_no_match (name : String) (v : JsValue)
    (segs : List Segment) (h : ∀ s ∈ segs, segIsPendingCall name s = false) :
    updateFirstSeg name v segs = segs := by
  induction segs with
  | nil => rfl
  | cons s ss ih =>
      have hs : segIsPendingCall name s = false := h s (by simp)
      simp [updateFirstSeg, hs, ih (fun x hx => h x (by simp [hx]))]

/-- The inner find sets exactly the first pending matching segment. -/
theorem updateFirstSeg_append (name : String) (v : JsValue)
    (s₁ s₂ : List Segment) (c : Segment)
    (h1 : ∀ s ∈ s₁, segIsPendingCall name s = false)
    (hc : segIsPendingCall name c = true) :
    updateFirstSeg name v (s₁ ++ c :: s₂) = s₁ ++ setResult v c :: s₂ := by
  induction s₁ with
  | nil => simp [updateFirstSeg, hc]
  | cons s ss ih =>
      have hs : segIsPendingCall name s = false := h1 s (by simp)
      simp [updateFirstSeg, hs, ih (fun x hx => h1 x (by simp [hx]))]

/-- A history containing a model turn tests positive for one. -/
theorem any_isModel_append (l₁ l₂ : List HistoryItem) (segs : List Segment) :
    (l₁ ++ .model segs :: l₂).any isModelItem = true := by
  simp [List.any_append, isModelItem]

/-- The reverse find reaches exactly the last model turn: when the tail
after it holds no model turn, only that turn is rewritten. -/
theorem updateLastModel_append (f : List Segment → List Segment)
    (h₁ h₂ : List HistoryItem) (segs : List Segment)
    (hh₂ : ∀ x ∈ h₂, isModelItem x = false) :
    updateLastModel f (h₁ ++ .model segs :: h₂) = h₁ ++ .model (f segs) :: h₂ := by
  induction h₁ with
  | nil =>
      have hany : h₂.any isModelItem = false := by
        rw [List.any_eq_false]
        intro x hx
        simp [hh₂ x hx]
      simp [updateLastModel, hany]
  | cons x xs ih =>
      have hany := any_isModel_append xs h₂ segs
      simp [updateLastModel, hany, ih]

/-- A history without model turns is left untouched. -/
theorem updateLastModel_of_no_model (f : List Segment → List Segment)
    (h : List HistoryItem) (hh : ∀ x ∈ h, isModelItem x = false) :
    updateLastModel f h = h := by
  induction h with
  | nil => rfl
  | cons x xs ih =>
      have hx : isModelItem x = false := hh x (by simp)
      have hany : xs.any isModelItem = false := by
        rw [List.any_eq_false]
        intro y hy
        simp [hh y (by simp [hy])]
      cases x with
      | system t => simp [updateLastModel, hany]
      | user t => simp [updateLastModel, hany]
      | model segs => simp [isModelItem] at hx

/-- Unfolding of the reverse find on a cons cell whose tail still holds
a model turn. -/
theorem updateLastModel_cons_of_any (f : List Segment → List Segment)
    (x : HistoryItem) (xs : List HistoryItem)
    (hm : xs.any isModelItem = true) :
    updateLastModel f (x :: xs) = x :: updateLastModel f xs := by
  cases x <;> simp [updateLastModel, hm]

/-- When the history holds no pending matching call (in the sense of the
truthiness probe), attaching a result is the identity. -/
theorem attachResult_of_no_pending (name : String) (out : ToolOutput)
    (h : List HistoryItem) (hp : historyHasPending name h = false) :
    attachResult name out h = h := by
  induction h with
  | nil => rfl
  | cons x xs ih =>
      rw [historyHasPending, List.any_cons, Bool.or_eq_false_iff] at hp
      obtain ⟨hx, hxs⟩ := hp
      have hrec : attachResult name out xs = xs := ih hxs
      by_cases hm : xs.any isModelItem = true
      · unfold attachResult at hrec ⊢
        rw [updateLastModel_cons_of_any _ _ _ hm, hrec]
      · have hm' : xs.any isModelItem = false := by simpa using hm
        cases x with
        | system t => simp [attachResult, updateLastModel, hm']
        | user t => simp [attachResult, updateLastModel, hm']
        | model segs =>
            have hsegs : ∀ s ∈ segs, segIsPendingCall name s = false := by
              intro s hs
              have := List.any_eq_false.mp (by simpa using hx) s hs
              simpa using this
            simp [attachResult, updateLastModel, hm',
              updateFirstSeg_of_no_match name _ segs hsegs]

/-! ## C3 -/

/-- C3 counterexample: the claim that each tool-result is attached to the
nearest preceding model turn containing an unresolved matching call, and
that a result is set at most once, fails on the code.  First input: the
matching unresolved call sits in the first model turn, but the code only
inspects the last model turn, so nothing is attached and the call stays
pending.  Second input: a falsy result (`false`) leaves the `!r.result`
probe true, so a second result for the same call overwrites the first;
the claim-compliant outcome would retain `false`. -/
theorem C3_counterexample :
    convertToLlamaChatHistory exScanPrompt =
      [.model [.functionCall "X" (.num 1) none], .model [.textSeg "hi"]]
    ∧ historyHasPending "X" (convertToLlamaChatHistory exScanPrompt) = true
    ∧ convertToLlamaChatHistory
        [.assistant [.toolCall "X" (.num 1)],
         .tool [.toolResult "X" ⟨"json", .bool false⟩]] =
      [.model [.functionCall "X" (.num 1) (some (.bool false))]]
    ∧ convertToLlamaChatHistory exOverwritePrompt =
      [.model [.functionCall "X" (.num 1) (some (.str "second"))]] :=
  ⟨rfl, rfl, rfl, rfl⟩

/-- C3 (amended): each tool-result part is attached to the last
model-response turn of the already-translated history, whether or not it
contains a matching call; within that turn the first function-call
segment whose name matches and whose result is unset or falsy receives
the result (a typed JSON value unwrapped to its raw value, any other
output attached as the whole output object); if the last model turn has
no such segment, or no model turn exists, the result is dropped and the
history is unchanged — no earlier turn is ever consulted. -/
theorem C3_attachment_amended :
    (∀ (name : String) (out : ToolOutput) (h₁ h₂ : List HistoryItem)
        (s₁ s₂ : List Segment) (cn : String) (cp : JsValue) (cr : Option JsValue),
      (∀ x ∈ h₂, isModelItem x = false) →
      (∀ s ∈ s₁, segIsPendingCall name s = false) →
      segIsPendingCall name (.functionCall cn cp cr) = true →
      attachResult name out
          (h₁ ++ .model (s₁ ++ .functionCall cn cp cr :: s₂) :: h₂)
        = h₁ ++ .model (s₁ ++ .functionCall cn cp (some (unwrapOutput out)) :: s₂) :: h₂)
    ∧ (∀ (name : String) (out : ToolOutput) (h₁ h₂ : List HistoryItem)
        (segs : List Segment),
      (∀ x ∈ h₂, isModelItem x = false) →
      (∀ s ∈ segs, segIsPendingCall name s = false) →
      attachResult name out (h₁ ++ .model segs :: h₂) = h₁ ++ .model segs :: h₂)
    ∧ (∀ (name : String) (out : ToolOutput) (h : List HistoryItem),
      (∀ x ∈ h, isModelItem x = false) → attachResult name out h = h) := by
  refine ⟨?_, ?_, ?_⟩
  · intro name out h₁ h₂ s₁ s₂ cn cp cr hh₂ hs₁ hc
    unfold attachResult
    rw [updateLastModel_append _ h₁ h₂ _ hh₂,
      updateFirstSeg_append name _ s₁ s₂ _ hs₁ hc]
    rfl
  · intro name out h₁ h₂ segs hh₂ hsegs
    unfold attachResult
    rw [updateLastModel_append _ h₁ h₂ _ hh₂,
      updateFirstSeg_of_no_match name _ segs hsegs]
  · intro name out h hh
    exact updateLastModel_of_no_model _ h hh

/-- C3 witness: the amended attachment behaviour at concrete inputs. -/
theorem C3_attachment_amended_witness :
    attachResult "X" ⟨"json", .num 7⟩ [.model [.functionCall "X" (.num 2) none]]
      = [.model [.functionCall "X" (.num 2) (some (.num 7))]]
    ∧ attachResult "X" ⟨"json", .num 7⟩ [.model [.textSeg "t"]]
      = [.model [.textSeg "t"]]
    ∧ attachResult "X" ⟨"json", .num 7⟩ [.user "u"] = [.user "u"] := by
  refine ⟨?_, ?_, ?_⟩
  · have h := C3_attachment_amended.1 "X" ⟨"json", .num 7⟩ [] [] [] []
      "X" (.num 2) none (by simp) (by simp) (by decide)
    simpa [unwrapOutput] using h
  · have h := C3_attachment_amended.2.1 "X" ⟨"json", .num 7⟩ [] [] [.textSeg "t"]
      (by simp) (by decide)
    simpa using h
  · have h := C3_attachment_amended.2.2 "X" ⟨"json", .num 7⟩ [.user "u"] (by decide)
    simpa using h

/-! ## C9 -/

/-- C9 counterexample: the conversation `exLatePrompt` ends with a
tool-result naming a tool with no matching unresolved pending call (the
only call already holds its result, `false`), yet translation does not
produce the same turns as without that part: the truthiness probe treats
the falsy result as still pending and the late result overwrites it. -/
theorem C9_counterexample :
    convertToLlamaChatHistory exLatePrompt =
      [.model [.functionCall "X" (.num 1) (some (.str "late"))]]
    ∧ convertToLlamaChatHistory exLatePromptDropped =
      [.model [.functionCall "X" (.num 1) (some (.bool false))]]
    ∧ convertToLlamaChatHistory exLatePrompt
        ≠ convertToLlamaChatHistory exLatePromptDropped := by
  refine ⟨rfl, rfl, fun h => ?_⟩
  rw [show convertToLlamaChatHistory exLatePrompt =
      [.model [.functionCall "X" (.num 1) (some (.str "late"))]] from rfl,
    show convertToLlamaChatHistory exLatePromptDropped =
      [.model [.functionCall "X" (.num 1) (some (.bool false))]] from rfl] at h
  exact nomatch h

/-- C9 (amended): a tool-result part naming a tool for which the
already-translated history (at the point the part is processed) holds no
function-call segment with matching name and unset-or-falsy result is
silently dropped: translation succeeds and produces exactly the turns of
the conversation with that part removed. -/
theorem C9_unmatched_dropped (p₁ p₂ : List Message) (q₁ q₂ : List Part)
    (name : String) (out : ToolOutput)
    (hp : historyHasPending name
        (q₁.foldl toolStep (convertToLlamaChatHistory p₁)) = false) :
    convertToLlamaChatHistory (p₁ ++ .tool (q₁ ++ .toolResult name out :: q₂) :: p₂)
      = convertToLlamaChatHistory (p₁ ++ .tool (q₁ ++ q₂) :: p₂) := by
  unfold convertToLlamaChatHistory
  rw [List.foldl_append, List.foldl_append, List.foldl_cons, List.foldl_cons]
  have hstep : convertStep (List.foldl convertStep [] p₁)
        (.tool (q₁ ++ .toolResult name out :: q₂))
      = convertStep (List.foldl convertStep [] p₁) (.tool (q₁ ++ q₂)) := by
    show (q₁ ++ .toolResult name out :: q₂).foldl toolStep _
        = (q₁ ++ q₂).foldl toolStep _
    rw [List.foldl_append, List.foldl_append, List.foldl_cons]
    have : toolStep (q₁.foldl toolStep (List.foldl convertStep [] p₁))
        (.toolResult name out) = q₁.foldl toolStep (List.foldl convertStep [] p₁) := by
      show attachResult name out _ = _
      exact attachResult_of_no_pending name out _ hp
    rw [this]
  rw [hstep]

/-- C9 witness: a result for tool `X` arriving when the only call in the
history names `Y` is dropped, leaving the turns unchanged. -/
theorem C9_unmatched_dropped_witness :
    historyHasPending "X"
      (List.foldl toolStep
        (convertToLlamaChatHistory [.assistant [.toolCall "Y" (.num 1)]]) []) = false
    ∧ convertToLlamaChatHistory
        ([.assistant [.toolCall "Y" (.num 1)]]
          ++ .tool ([] ++ .toolResult "X" ⟨"json", .num 5⟩ :: []) :: [])
      = convertToLlamaChatHistory
        ([.assistant [.toolCall "Y" (.num 1)]] ++ .tool ([] ++ []) :: []) :=
  ⟨rfl, C9_unmatched_dropped [.assistant [.toolCall "Y" (.num 1)]] [] [] []
    "X" ⟨"json", .num 5⟩ rfl⟩

/-! ## C4 -/

/-- C4: the Conversation is translated and installed as the full session
history exactly when it has more than one message or contains a tool
result; otherwise nothing is installed; the prompt string passed to the
generation call is empty when a tool result is present and otherwise the
extraction from the final message. -/
theorem C4_history_and_prompt (prompt : List Message) :
    ((doStreamSetup prompt).installedHistory = some (convertToLlamaChatHistory prompt)
        ↔ (1 < prompt.length ∨ hasToolResults prompt = true))
    ∧ ((doStreamSetup prompt).installedHistory = none
        ↔ ¬(1 < prompt.length ∨ hasToolResults prompt = true))
    ∧ (hasToolResults prompt = true → (doStreamSetup prompt).promptText = "")
    ∧ (hasToolResults prompt = false →
        (doStreamSetup prompt).promptText = extractPromptText prompt) := by
  by_cases h1 : 1 < prompt.length <;> by_cases h2 : hasToolResults prompt = true <;>
    simp [doStreamSetup, h1, h2]

/-- C4 witness: a single-user-message request installs no history and
prompts with the extracted text; a continuation carrying a tool result
installs the translated history and prompts with the empty string. -/
theorem C4_history_and_prompt_witness :
    (doStreamSetup [.user [.text "hi"]]).promptText
      = extractPromptText [.user [.text "hi"]]
    ∧ (doStreamSetup exContinuationPrompt).promptText = ""
    ∧ (doStreamSetup exContinuationPrompt).installedHistory
      = some (convertToLlamaChatHistory exContinuationPrompt) :=
  ⟨(C4_history_and_prompt [.user [.text "hi"]]).2.2.2 rfl,
   (C4_history_and_prompt exContinuationPrompt).2.2.1 rfl,
   (C4_history_and_prompt exContinuationPrompt).1.mpr (Or.inr rfl)⟩

/-! ## C10 -/

/-- C10: every HTTP chat-completion handler, streaming or not, sends the
content of the final message of the messages array as the prompt, and
messages earlier in the array have no influence on it. -/
theorem C10_prompt_is_last_content (messages : List ChatMessage) (m : ChatMessage)
    (h : messages.getLast? = some m) :
    handleChatCompletionPrompt messages = some m.content
    ∧ handleStreamingChatCompletionPrompt messages = some m.content
    ∧ handleStreamingWithCallbackPrompt messages = some m.content
    ∧ (∀ earlier : List ChatMessage,
        handleChatCompletionPrompt (earlier ++ [m]) = some m.content
        ∧ handleStreamingChatCompletionPrompt (earlier ++ [m]) = some m.content
        ∧ handleStreamingWithCallbackPrompt (earlier ++ [m]) = some m.content) := by
  refine ⟨?_, ?_, ?_, fun earlier => ⟨?_, ?_, ?_⟩⟩ <;>
    simp [handleChatCompletionPrompt, handleStreamingChatCompletionPrompt,
      handleStreamingWithCallbackPrompt, h]

/-- C10 witness: a two-message request prompts with the content of its
final message. -/
theorem C10_prompt_is_last_content_witness :
    handleChatCompletionPrompt [⟨"system", "be nice"⟩, ⟨"user", "hello"⟩]
      = some "hello" :=
  (C10_prompt_is_last_content [⟨"system", "be nice"⟩, ⟨"user", "hello"⟩]
    ⟨"user", "hello"⟩ rfl).1

/-! ## Stream machine lemmas -/

/-- The bracket automaton composes over concatenation. -/
theorem brkRun_append (l₁ l₂ : List StreamEvent) :
    ∀ st, brkRun st (l₁ ++ l₂) = (brkRun st l₁).bind (fun st2 => brkRun st2 l₂) := by
  induction l₁ with
  | nil => intro st; cases st <;> rfl
  | cons e rest ih =>
      intro st
      cases st with
      | false =>
          by_cases hs : isStartEv e = true
          · simp [brkRun, hs, ih]
          · simp [brkRun, hs]
      | true =>
          by_cases hd : isDeltaEv e = true
          · simp [brkRun, hd, ih]
          · by_cases he : isEndEv e = true
            · simp [brkRun, hd, he, ih]
            · simp [brkRun, hd, he]

/-- Projection distributes over concatenation. -/
theorem projId_append (i : Nat) (l₁ l₂ : List StreamEvent) :
    projId i (l₁ ++ l₂) = projId i l₁ ++ projId i l₂ := by
  simp [projId, List.filter_append]

/-- Appending a block keeps the finish-prefix balance when every finish
event inside the block sits at a balanced position. -/
theorem finPre_append (l B : List StreamEvent) (hl : FinPre l)
    (hB : ∀ n r, B.get? n = some (StreamEvent.finish r) →
      l.countP isTextStartEv + (B.take n).countP isTextStartEv
        = l.countP isTextEndEv + (B.take n).countP isTextEndEv) :
    FinPre (l ++ B) := by
  intro n r hn
  by_cases h : n < l.length
  · rw [List.get?_append h] at hn
    rw [List.take_append_of_le_length (le_of_lt h)]
    exact hl n r hn
  · push_neg at h
    rw [List.get?_append_right h] at hn
    rw [List.take_append_eq_append_take, List.take_of_length_le h,
      List.countP_append, List.countP_append]
    exact hB (n - l.length) r hn

/-- Appending a finish-free block keeps the finish-prefix balance. -/
theorem finPre_append_nofin (l B : List StreamEvent) (hl : FinPre l)
    (hB : ∀ e ∈ B, isFinishEv e = false) : FinPre (l ++ B) := by
  apply finPre_append l B hl
  intro n r hn
  have hmem : StreamEvent.finish r ∈ B := List.get?_mem hn
  have := hB _ hmem
  simp [isFinishEv] at this

/-- The admissible transitions of a well-formed thought chunk. -/
theorem thoughtOk_cons_elim (isOpen hs he : Bool) (t : String)
    (rest : List RtEvent)
    (hw : thoughtOk isOpen (.thoughtChunk hs he t :: rest) = true) :
    (isOpen = false ∧ hs = true ∧ he = false ∧ thoughtOk true rest = true)
    ∨ (isOpen = true ∧ hs = false ∧ he = false ∧ thoughtOk true rest = true)
    ∨ (isOpen = true ∧ hs = false ∧ he = true ∧ t = ""
        ∧ thoughtOk false rest = true) := by
  cases isOpen <;> cases hs <;> cases he <;> simp [thoughtOk] at hw ⊢ <;> tauto

/-- Dissection of the no-event-after-tool admissibility condition at a
cons cell. -/
theorem noEventAfterTool_cons (e : RtEvent) (rest : List RtEvent)
    (h : noEventAfterTool (e :: rest) = true) :
    (rtIsToolInvoke e = true ∧ rest = [])
    ∨ (rtIsToolInvoke e = false ∧ noEventAfterTool rest = true) := by
  by_cases ht : rtIsToolInvoke e = true
  · left
    refine ⟨ht, ?_⟩
    rw [noEventAfterTool, if_pos ht] at h
    exact List.isEmpty_iff.mp h
  · right
    have ht2 : rtIsToolInvoke e = false := by simpa using ht
    refine ⟨ht2, ?_⟩
    rw [noEventAfterTool, if_neg ht] at h
    exact h

/-- Unfolding of the text-chunk reaction when the text stream is not yet
open. -/
theorem stepEvent_text_first (s : StreamState) (c : String) (hc : ¬ c = "")
    (hst : s.textStartSent = false) :
    stepEvent s (.textChunk c) =
      { s with events := s.events ++ [StreamEvent.textStart textId, StreamEvent.textDelta textId c]
               textStartSent := true } := by
  cases s
  simp_all [stepEvent]

/-- Unfolding of the text-chunk reaction when the text stream is already
open. -/
theorem stepEvent_text_next (s : StreamState) (c : String) (hc : ¬ c = "")
    (hst : s.textStartSent = true) :
    stepEvent s (.textChunk c) =
      { s with events := s.events ++ [StreamEvent.textDelta textId c] } := by
  cases s
  simp_all [stepEvent]

/-- Unfolding of the thought-chunk reaction. -/
theorem stepEvent_thought (s : StreamState) (hs he : Bool) (t : String) :
    stepEvent s (.thoughtChunk hs he t) =
      { s with events := s.events ++
          ((if hs then [StreamEvent.reasoningStart reasoningId] else []) ++
            (if he then [StreamEvent.reasoningEnd reasoningId] else []) ++
            (if t = "" then [] else [StreamEvent.reasoningDelta reasoningId t])) } := by
  cases s
  cases hs <;> cases he <;> by_cases ht : t = "" <;> simp_all [stepEvent]

/-- Unfolding of the wrapped-tool-handler reaction (before the text
stream was ever force-closed). -/
theorem stepEvent_tool (s : StreamState) (name : String) (params : JsValue)
    (hend : s.textEndSent = false) :
    stepEvent s (.toolInvoke name params) =
      { s with
        events := s.events ++
          ((if s.textStartSent then [StreamEvent.textEnd textId] else []) ++
            [StreamEvent.toolCall s.nextCallId name (jsonStringify params),
             StreamEvent.finish "tool-calls"])
        textEndSent := s.textStartSent
        nextCallId := s.nextCallId + 1
        toolCallAborted := true } := by
  cases s with
  | mk a b ab nid ev =>
      subst hend
      cases a <;> simp [stepEvent]

/-- The abort flag records exactly whether a tool fired. -/
theorem stepEvent_aborted (s : StreamState) (e : RtEvent) :
    (stepEvent s e).toolCallAborted = (s.toolCallAborted || rtIsToolInvoke e) := by
  cases e with
  | textChunk c =>
      by_cases hc : c = "" <;> by_cases hst : s.textStartSent = true <;>
        simp [stepEvent, hc, hst, rtIsToolInvoke]
  | thoughtChunk hs he t =>
      cases hs <;> cases he <;> by_cases ht : t = "" <;>
        simp [stepEvent, ht, rtIsToolInvoke]
  | otherChunk => simp [stepEvent, rtIsToolInvoke]
  | toolInvoke n p =>
      by_cases h : (s.textStartSent && !s.textEndSent) = true <;>
        simp [stepEvent, h, rtIsToolInvoke]

/-- Folding the callbacks sets the abort flag exactly when some tool
fired. -/
theorem fold_aborted (evs : List RtEvent) :
    ∀ s : StreamState, (evs.foldl stepEvent s).toolCallAborted
      = (s.toolCallAborted || evs.any rtIsToolInvoke) := by
  induction evs with
  | nil => intro s; simp
  | cons e rest ih =>
      intro s
      rw [List.foldl_cons, ih, stepEvent_aborted, List.any_cons,
        Bool.or_assoc]

/-- A callback that is not a tool invocation leaves the abort flag, the
fresh-id supply, the text-end flag and the tool-call and finish event
counts unchanged. -/
theorem stepEvent_preserves_of_not_tool (s : StreamState) (e : RtEvent)
    (h : rtIsToolInvoke e = false) :
    (stepEvent s e).toolCallAborted = s.toolCallAborted
    ∧ (stepEvent s e).nextCallId = s.nextCallId
    ∧ (stepEvent s e).textEndSent = s.textEndSent
    ∧ ((stepEvent s e).events).countP isToolCallEv
        = s.events.countP isToolCallEv
    ∧ ((stepEvent s e).events).countP isFinishEv
        = s.events.countP isFinishEv := by
  cases e with
  | textChunk c =>
      by_cases hc : c = "" <;> by_cases hst : s.textStartSent = true <;>
        simp [stepEvent, hc, hst, List.countP_append, List.countP_cons,
          isToolCallEv, isFinishEv]
  | thoughtChunk hs he t =>
      cases hs <;> cases he <;> by_cases ht : t = "" <;>
        simp [stepEvent, ht, List.countP_append, List.countP_cons,
          isToolCallEv, isFinishEv]
  | otherChunk => simp [stepEvent]
  | toolInvoke n p => simp [rtIsToolInvoke] at h

/-- Folding tool-free callbacks keeps the abort flag down, the fresh-id
supply and text-end flag unchanged, and emits no tool-call or finish
event. -/
theorem fold_no_tool (evs : List RtEvent) :
    ∀ s : StreamState, (∀ e ∈ evs, rtIsToolInvoke e = false) →
      (evs.foldl stepEvent s).toolCallAborted = s.toolCallAborted
      ∧ (evs.foldl stepEvent s).nextCallId = s.nextCallId
      ∧ (evs.foldl stepEvent s).textEndSent = s.textEndSent
      ∧ ((evs.foldl stepEvent s).events).countP isToolCallEv
          = s.events.countP isToolCallEv
      ∧ ((evs.foldl stepEvent s).events).countP isFinishEv
          = s.events.countP isFinishEv := by
  induction evs with
  | nil => intro s _; exact ⟨rfl, rfl, rfl, rfl, rfl⟩
  | cons e rest ih =>
      intro s hall
      have he : rtIsToolInvoke e = false := hall e (by simp)
      obtain ⟨p1, p2, p3, p4, p5⟩ := stepEvent_preserves_of_not_tool s e he
      obtain ⟨q1, q2, q3, q4, q5⟩ :=
        ih (stepEvent s e) (fun x hx => hall x (by simp [hx]))
      rw [List.foldl_cons]
      exact ⟨q1.trans p1, q2.trans p2, q3.trans p3, q4.trans p4, q5.trans p5⟩

/-- A silent run of callbacks (no nonempty text fragment) never opens
the text stream. -/
theorem fold_textStartSent_of_silent (evs : List RtEvent) :
    ∀ s : StreamState, noTextProduced evs = true →
      (evs.foldl stepEvent s).textStartSent = s.textStartSent := by
  induction evs with
  | nil => intro s _; rfl
  | cons e rest ih =>
      intro s hs
      rw [noTextProduced, List.all_cons, Bool.and_eq_true] at hs
      obtain ⟨h1, h2⟩ := hs
      rw [List.foldl_cons, ih _ h2]
      cases e with
      | textChunk c =>
          have hc : c = "" := by simpa using h1
          simp [stepEvent, hc]
      | thoughtChunk a b t =>
          cases a <;> cases b <;> by_cases ht : t = "" <;> simp [stepEvent, ht]
      | otherChunk => rfl
      | toolInvoke n p =>
          by_cases hcond : (s.textStartSent && !s.textEndSent) = true <;>
            simp [stepEvent, hcond]

/-- The invariant holds at the initial stream state. -/
theorem inv_init : Inv initStreamState false := by
  refine ⟨rfl, rfl, ?_, rfl, rfl, ?_, rfl, ?_, ?_, ?_⟩
  · intro e he
    exact absurd he (List.not_mem_nil e)
  · intro h
    exact Bool.noConfusion h
  · intro n r hn
    exact nomatch hn
  · intro _
    exact ⟨rfl, rfl⟩
  · intro _
    rfl

/-- The invariant is preserved by a text chunk (while no tool has fired,
so the text stream was never force-closed). -/
theorem inv_step_text (s : StreamState) (topen : Bool) (c : String)
    (hI : Inv s topen) (hend : s.textEndSent = false) :
    Inv (stepEvent s (.textChunk c)) topen := by
  by_cases hc : c = ""
  · have hid : stepEvent s (.textChunk c) = s := by
      subst hc; simp [stepEvent]
    rw [hid]
    exact hI
  · by_cases hst : s.textStartSent = true
    · rw [stepEvent_text_next s c hc hst]
      refine ⟨?_, ?_, ?_, ?_, ?_, ?_, ?_, ?_, ?_, ?_⟩
      · show brkRun false (projId textId (s.events ++ [StreamEvent.textDelta textId c]))
            = some (s.textStartSent && !s.textEndSent)
        rw [projId_append, brkRun_append, hI.tb, hst, hend]
        rfl
      · show brkRun false (projId reasoningId (s.events ++ [StreamEvent.textDelta textId c]))
            = some topen
        rw [projId_append, brkRun_append, hI.rb]
        cases topen <;> rfl
      · show ∀ e ∈ s.events ++ [StreamEvent.textDelta textId c], idOk e = true
        intro e he
        rcases List.mem_append.mp he with h | h
        · exact hI.ids e h
        · rw [List.mem_singleton.mp h]
          rfl
      · show (s.events ++ [StreamEvent.textDelta textId c]).countP isTextStartEv = _
        rw [List.countP_append, hI.tsCnt]
        rfl
      · show (s.events ++ [StreamEvent.textDelta textId c]).countP isTextEndEv = _
        rw [List.countP_append, hI.teCnt]
        rfl
      · exact hI.endStart
      · show (s.events ++ [StreamEvent.textDelta textId c]).countP isFinishEv = _
        rw [List.countP_append, hI.finCnt]
        rfl
      · refine finPre_append_nofin _ _ hI.finPre ?_
        intro e he
        rw [List.mem_singleton.mp he]
        rfl
      · intro h
        obtain ⟨h1, h2⟩ := hI.tcCnt h
        constructor
        · show (s.events ++ [StreamEvent.textDelta textId c]).countP isToolCallEv = 0
          rw [List.countP_append, h1]
          rfl
        · exact h2
      · intro h
        rw [hst] at h
        exact Bool.noConfusion h
    · have hst2 : s.textStartSent = false := by simpa using hst
      rw [stepEvent_text_first s c hc hst2]
      refine ⟨?_, ?_, ?_, ?_, ?_, ?_, ?_, ?_, ?_, ?_⟩
      · show brkRun false
            (projId textId (s.events ++ [StreamEvent.textStart textId, StreamEvent.textDelta textId c]))
            = some (true && !s.textEndSent)
        rw [projId_append, brkRun_append, hI.tb, hst2, hend]
        rfl
      · show brkRun false
            (projId reasoningId (s.events ++ [StreamEvent.textStart textId, StreamEvent.textDelta textId c]))
            = some topen
        rw [projId_append, brkRun_append, hI.rb]
        cases topen <;> rfl
      · show ∀ e ∈ s.events ++ [StreamEvent.textStart textId, StreamEvent.textDelta textId c], idOk e = true
        intro e he
        rcases List.mem_append.mp he with h | h
        · exact hI.ids e h
        · rcases List.mem_cons.mp h with h2 | h2
          · rw [h2]; rfl
          · rw [List.mem_singleton.mp h2]; rfl
      · show (s.events ++ [StreamEvent.textStart textId, StreamEvent.textDelta textId c]).countP isTextStartEv
            = _
        rw [List.countP_append, hI.tsCnt, hst2]
        rfl
      · show (s.events ++ [StreamEvent.textStart textId, StreamEvent.textDelta textId c]).countP isTextEndEv
            = _
        rw [List.countP_append, hI.teCnt]
        rfl
      · intro _
        rfl
      · show (s.events ++ [StreamEvent.textStart textId, StreamEvent.textDelta textId c]).countP isFinishEv
            = _
        rw [List.countP_append, hI.finCnt]
        rfl
      · refine finPre_append_nofin _ _ hI.finPre ?_
        intro e he
        rcases List.mem_cons.mp he with h2 | h2
        · rw [h2]; rfl
        · rw [List.mem_singleton.mp h2]; rfl
      · intro h
        obtain ⟨h1, h2⟩ := hI.tcCnt h
        constructor
        · show (s.events ++ [StreamEvent.textStart textId, StreamEvent.textDelta textId c]).countP isToolCallEv
              = 0
          rw [List.countP_append, h1]
          rfl
        · exact h2
      · intro h
        exact Bool.noConfusion h

/-- The invariant is preserved by a thought chunk opening a segment. -/
theorem inv_step_thought_open (s : StreamState) (t : String)
    (hI : Inv s false) :
    Inv (stepEvent s (.thoughtChunk true false t)) true := by
  by_cases ht : t = ""
  · subst ht
    have hrec : stepEvent s (.thoughtChunk true false "") =
        { s with events := s.events ++ [StreamEvent.reasoningStart reasoningId] } := by
      rw [stepEvent_thought]
      simp
    rw [hrec]
    refine ⟨?_, ?_, ?_, ?_, ?_, ?_, ?_, ?_, ?_, ?_⟩
    · show brkRun false (projId textId (s.events ++ [StreamEvent.reasoningStart reasoningId]))
          = some (s.textStartSent && !s.textEndSent)
      rw [projId_append, brkRun_append, hI.tb]
      cases hb : (s.textStartSent && !s.textEndSent) <;> rfl
    · show brkRun false (projId reasoningId (s.events ++ [StreamEvent.reasoningStart reasoningId]))
          = some true
      rw [projId_append, brkRun_append, hI.rb]
      rfl
    · intro e he
      rcases List.mem_append.mp he with h | h
      · exact hI.ids e h
      · rw [List.mem_singleton.mp h]; rfl
    · show (s.events ++ [StreamEvent.reasoningStart reasoningId]).countP isTextStartEv = _
      rw [List.countP_append, hI.tsCnt]; rfl
    · show (s.events ++ [StreamEvent.reasoningStart reasoningId]).countP isTextEndEv = _
      rw [List.countP_append, hI.teCnt]; rfl
    · exact hI.endStart
    · show (s.events ++ [StreamEvent.reasoningStart reasoningId]).countP isFinishEv = _
      rw [List.countP_append, hI.finCnt]; rfl
    · refine finPre_append_nofin _ _ hI.finPre ?_
      intro e he
      rw [List.mem_singleton.mp he]; rfl
    · intro h
      obtain ⟨h1, h2⟩ := hI.tcCnt h
      refine ⟨?_, h2⟩
      show (s.events ++ [StreamEvent.reasoningStart reasoningId]).countP isToolCallEv = 0
      rw [List.countP_append, h1]; rfl
    · intro h
      show projId textId (s.events ++ [StreamEvent.reasoningStart reasoningId]) = []
      rw [projId_append, hI.started h]
      rfl
  · have hrec : stepEvent s (.thoughtChunk true false t) =
        { s with events := s.events ++ [StreamEvent.reasoningStart reasoningId,
            StreamEvent.reasoningDelta reasoningId t] } := by
      rw [stepEvent_thought, if_neg ht]
      simp
    rw [hrec]
    refine ⟨?_, ?_, ?_, ?_, ?_, ?_, ?_, ?_, ?_, ?_⟩
    · show brkRun false (projId textId (s.events ++
          [StreamEvent.reasoningStart reasoningId, StreamEvent.reasoningDelta reasoningId t]))
          = some (s.textStartSent && !s.textEndSent)
      rw [projId_append, brkRun_append, hI.tb]
      cases hb : (s.textStartSent && !s.textEndSent) <;> rfl
    · show brkRun false (projId reasoningId (s.events ++
          [StreamEvent.reasoningStart reasoningId, StreamEvent.reasoningDelta reasoningId t]))
          = some true
      rw [projId_append, brkRun_append, hI.rb]
      rfl
    · intro e he
      rcases List.mem_append.mp he with h | h
      · exact hI.ids e h
      · rcases List.mem_cons.mp h with h2 | h2
        · rw [h2]; rfl
        · rw [List.mem_singleton.mp h2]; rfl
    · show (s.events ++ [StreamEvent.reasoningStart reasoningId,
          StreamEvent.reasoningDelta reasoningId t]).countP isTextStartEv = _
      rw [List.countP_append, hI.tsCnt]; rfl
    · show (s.events ++ [StreamEvent.reasoningStart reasoningId,
          StreamEvent.reasoningDelta reasoningId t]).countP isTextEndEv = _
      rw [List.countP_append, hI.teCnt]; rfl
    · exact hI.endStart
    · show (s.events ++ [StreamEvent.reasoningStart reasoningId,
          StreamEvent.reasoningDelta reasoningId t]).countP isFinishEv = _
      rw [List.countP_append, hI.finCnt]; rfl
    · refine finPre_append_nofin _ _ hI.finPre ?_
      intro e he
      rcases List.mem_cons.mp he with h2 | h2
      · rw [h2]; rfl
      · rw [List.mem_singleton.mp h2]; rfl
    · intro h
      obtain ⟨h1, h2⟩ := hI.tcCnt h
      refine ⟨?_, h2⟩
      show (s.events ++ [StreamEvent.reasoningStart reasoningId,
          StreamEvent.reasoningDelta reasoningId t]).countP isToolCallEv = 0
      rw [List.countP_append, h1]; rfl
    · intro h
      show projId textId (s.events ++ [StreamEvent.reasoningStart reasoningId,
          StreamEvent.reasoningDelta reasoningId t]) = []
      rw [projId_append, hI.started h]
      rfl

/-- The invariant is preserved by a markerless thought fragment while a
segment is open. -/
theorem inv_step_thought_mid (s : StreamState) (t : String)
    (hI : Inv s true) :
    Inv (stepEvent s (.thoughtChunk false false t)) true := by
  by_cases ht : t = ""
  · subst ht
    have hrec : stepEvent s (.thoughtChunk false false "") = s := by
      rw [stepEvent_thought]
      cases s
      simp
    rw [hrec]
    exact hI
  · have hrec : stepEvent s (.thoughtChunk false false t) =
        { s with events := s.events ++ [StreamEvent.reasoningDelta reasoningId t] } := by
      rw [stepEvent_thought, if_neg ht]
      simp
    rw [hrec]
    refine ⟨?_, ?_, ?_, ?_, ?_, ?_, ?_, ?_, ?_, ?_⟩
    · show brkRun false (projId textId (s.events ++ [StreamEvent.reasoningDelta reasoningId t]))
          = some (s.textStartSent && !s.textEndSent)
      rw [projId_append, brkRun_append, hI.tb]
      cases hb : (s.textStartSent && !s.textEndSent) <;> rfl
    · show brkRun false (projId reasoningId (s.events ++ [StreamEvent.reasoningDelta reasoningId t]))
          = some true
      rw [projId_append, brkRun_append, hI.rb]
      rfl
    · intro e he
      rcases List.mem_append.mp he with h | h
      · exact hI.ids e h
      · rw [List.mem_singleton.mp h]; rfl
    · show (s.events ++ [StreamEvent.reasoningDelta reasoningId t]).countP isTextStartEv = _
      rw [List.countP_append, hI.tsCnt]; rfl
    · show (s.events ++ [StreamEvent.reasoningDelta reasoningId t]).countP isTextEndEv = _
      rw [List.countP_append, hI.teCnt]; rfl
    · exact hI.endStart
    · show (s.events ++ [StreamEvent.reasoningDelta reasoningId t]).countP isFinishEv = _
      rw [List.countP_append, hI.finCnt]; rfl
    · refine finPre_append_nofin _ _ hI.finPre ?_
      intro e he
      rw [List.mem_singleton.mp he]; rfl
    · intro h
      obtain ⟨h1, h2⟩ := hI.tcCnt h
      refine ⟨?_, h2⟩
      show (s.events ++ [StreamEvent.reasoningDelta reasoningId t]).countP isToolCallEv = 0
      rw [List.countP_append, h1]; rfl
    · intro h
      show projId textId (s.events ++ [StreamEvent.reasoningDelta reasoningId t]) = []
      rw [projId_append, hI.started h]
      rfl

/-- The invariant is preserved by a thought chunk closing the open
segment. -/
theorem inv_step_thought_close (s : StreamState) (hI : Inv s true) :
    Inv (stepEvent s (.thoughtChunk false true "")) false := by
  have hrec : stepEvent s (.thoughtChunk false true "") =
      { s with events := s.events ++ [StreamEvent.reasoningEnd reasoningId] } := by
    rw [stepEvent_thought]
    simp
  rw [hrec]
  refine ⟨?_, ?_, ?_, ?_, ?_, ?_, ?_, ?_, ?_, ?_⟩
  · show brkRun false (projId textId (s.events ++ [StreamEvent.reasoningEnd reasoningId]))
        = some (s.textStartSent && !s.textEndSent)
    rw [projId_append, brkRun_append, hI.tb]
    cases hb : (s.textStartSent && !s.textEndSent) <;> rfl
  · show brkRun false (projId reasoningId (s.events ++ [StreamEvent.reasoningEnd reasoningId]))
        = some false
    rw [projId_append, brkRun_append, hI.rb]
    rfl
  · intro e he
    rcases List.mem_append.mp he with h | h
    · exact hI.ids e h
    · rw [List.mem_singleton.mp h]; rfl
  · show (s.events ++ [StreamEvent.reasoningEnd reasoningId]).countP isTextStartEv = _
    rw [List.countP_append, hI.tsCnt]; rfl
  · show (s.events ++ [StreamEvent.reasoningEnd reasoningId]).countP isTextEndEv = _
    rw [List.countP_append, hI.teCnt]; rfl
  · exact hI.endStart
  · show (s.events ++ [StreamEvent.reasoningEnd reasoningId]).countP isFinishEv = _
    rw [List.countP_append, hI.finCnt]; rfl
  · refine finPre_append_nofin _ _ hI.finPre ?_
    intro e he
    rw [List.mem_singleton.mp he]; rfl
  · intro h
    obtain ⟨h1, h2⟩ := hI.tcCnt h
    refine ⟨?_, h2⟩
    show (s.events ++ [StreamEvent.reasoningEnd reasoningId]).countP isToolCallEv = 0
    rw [List.countP_append, h1]; rfl
  · intro h
    show projId textId (s.events ++ [StreamEvent.reasoningEnd reasoningId]) = []
    rw [projId_append, hI.started h]
    rfl


/-- The invariant is preserved by a tool invocation. -/
theorem inv_step_tool (s : StreamState) (topen : Bool) (name : String)
    (params : JsValue) (hI : Inv s topen) (hab : s.toolCallAborted = false)
    (hend : s.textEndSent = false) :
    Inv (stepEvent s (.toolInvoke name params)) topen := by
  by_cases hst : s.textStartSent = true
  · have hrec : stepEvent s (.toolInvoke name params) =
        { s with
          events := s.events ++ [StreamEvent.textEnd textId,
            StreamEvent.toolCall s.nextCallId name (jsonStringify params),
            StreamEvent.finish "tool-calls"]
          textEndSent := true
          nextCallId := s.nextCallId + 1
          toolCallAborted := true } := by
      rw [stepEvent_tool s name params hend, hst]
      simp
    rw [hrec]
    refine ⟨?_, ?_, ?_, ?_, ?_, ?_, ?_, ?_, ?_, ?_⟩
    · show brkRun false (projId textId (s.events ++ [StreamEvent.textEnd textId,
          StreamEvent.toolCall s.nextCallId name (jsonStringify params), StreamEvent.finish "tool-calls"]))
          = some (s.textStartSent && !true)
      rw [projId_append, brkRun_append, hI.tb, hst, hend]
      rfl
    · show brkRun false (projId reasoningId (s.events ++ [StreamEvent.textEnd textId,
          StreamEvent.toolCall s.nextCallId name (jsonStringify params), StreamEvent.finish "tool-calls"]))
          = some topen
      rw [projId_append, brkRun_append, hI.rb]
      cases topen <;> rfl
    · intro e he
      rcases List.mem_append.mp he with h | h
      · exact hI.ids e h
      · rcases List.mem_cons.mp h with h2 | h2
        · rw [h2]; rfl
        · rcases List.mem_cons.mp h2 with h3 | h3
          · rw [h3]; rfl
          · rw [List.mem_singleton.mp h3]; rfl
    · rw [List.countP_append, hI.tsCnt]; rfl
    · show (s.events ++ _).countP isTextEndEv = _
      rw [List.countP_append, hI.teCnt, hend]
      rfl
    · intro _
      exact hst
    · rw [List.countP_append, hI.finCnt, hab]; rfl
    · refine finPre_append _ _ hI.finPre ?_
      intro n r hn
      match n with
      | 0 => exact absurd hn (by simp)
      | 1 => exact absurd hn (by simp)
      | 2 =>
          show s.events.countP isTextStartEv + _ = s.events.countP isTextEndEv + _
          rw [hI.tsCnt, hI.teCnt, hst, hend]
          rfl
      | (m + 3) => exact absurd hn (by simp [List.get?])
    · intro h
      exact Bool.noConfusion h
    · intro h
      rw [hst] at h
      exact Bool.noConfusion h
  · have hst2 : s.textStartSent = false := by simpa using hst
    have hrec : stepEvent s (.toolInvoke name params) =
        { s with
          events := s.events ++
            [StreamEvent.toolCall s.nextCallId name (jsonStringify params),
             StreamEvent.finish "tool-calls"]
          textEndSent := false
          nextCallId := s.nextCallId + 1
          toolCallAborted := true } := by
      rw [stepEvent_tool s name params hend, hst2]
      simp
    rw [hrec]
    refine ⟨?_, ?_, ?_, ?_, ?_, ?_, ?_, ?_, ?_, ?_⟩
    · show brkRun false (projId textId (s.events ++
          [StreamEvent.toolCall s.nextCallId name (jsonStringify params), StreamEvent.finish "tool-calls"]))
          = some (s.textStartSent && !false)
      rw [projId_append, brkRun_append, hI.tb, hst2, hend]
      rfl
    · show brkRun false (projId reasoningId (s.events ++
          [StreamEvent.toolCall s.nextCallId name (jsonStringify params), StreamEvent.finish "tool-calls"]))
          = some topen
      rw [projId_append, brkRun_append, hI.rb]
      cases topen <;> rfl
    · intro e he
      rcases List.mem_append.mp he with h | h
      · exact hI.ids e h
      · rcases List.mem_cons.mp h with h2 | h2
        · rw [h2]; rfl
        · rw [List.mem_singleton.mp h2]; rfl
    · rw [List.countP_append, hI.tsCnt]; rfl
    · show (s.events ++ _).countP isTextEndEv = _
      rw [List.countP_append, hI.teCnt, hend]
      rfl
    · intro h
      exact Bool.noConfusion h
    · rw [List.countP_append, hI.finCnt, hab]; rfl
    · refine finPre_append _ _ hI.finPre ?_
      intro n r hn
      match n with
      | 0 => exact absurd hn (by simp)
      | 1 =>
          show s.events.countP isTextStartEv + _ = s.events.countP isTextEndEv + _
          rw [hI.tsCnt, hI.teCnt, hst2, hend]
          rfl
      | (m + 2) => exact absurd hn (by simp [List.get?])
    · intro h
      exact Bool.noConfusion h
    · intro h
      rw [projId_append, hI.started h]
      rfl

/-- The invariant holds after folding any admissible well-formed
callback sequence. -/
theorem fold_inv (evs : List RtEvent) :
    ∀ (s : StreamState) (topen : Bool),
      thoughtOk topen evs = true →
      noEventAfterTool evs = true →
      Inv s topen →
      s.toolCallAborted = false →
      s.textEndSent = false →
      ∃ topen2, Inv (evs.foldl stepEvent s) topen2 := by
  induction evs with
  | nil =>
      intro s topen _ _ hI _ _
      exact ⟨topen, hI⟩
  | cons e rest ih =>
      intro s topen hw hna hI hab hend
      rcases noEventAfterTool_cons e rest hna with ⟨ht, hrest⟩ | ⟨ht, hna2⟩
      · subst hrest
        cases e with
        | toolInvoke name params =>
            rw [List.foldl_cons, List.foldl_nil]
            exact ⟨topen, inv_step_tool s topen name params hI hab hend⟩
        | textChunk c => exact absurd ht (by simp [rtIsToolInvoke])
        | thoughtChunk a b t => exact absurd ht (by simp [rtIsToolInvoke])
        | otherChunk => exact absurd ht (by simp [rtIsToolInvoke])
      · cases e with
        | textChunk c =>
            rw [List.foldl_cons]
            have hw2 : thoughtOk topen rest = true := by
              simpa [thoughtOk] using hw
            refine ih (stepEvent s (.textChunk c)) topen hw2 hna2
              (inv_step_text s topen c hI hend) ?_ ?_
            · rw [stepEvent_aborted, hab, ht]
              rfl
            · exact ((stepEvent_preserves_of_not_tool s _ ht).2.2.1).trans hend
        | thoughtChunk a b t =>
            rw [List.foldl_cons]
            rcases thoughtOk_cons_elim topen a b t rest hw with
              ⟨ho, ha, hb, hrest⟩ | ⟨ho, ha, hb, hrest⟩ | ⟨ho, ha, hb, hT, hrest⟩
            · subst ho; subst ha; subst hb
              refine ih _ true hrest hna2 (inv_step_thought_open s t hI) ?_ ?_
              · rw [stepEvent_aborted, hab, ht]
                rfl
              · exact ((stepEvent_preserves_of_not_tool s _ ht).2.2.1).trans hend
            · subst ho; subst ha; subst hb
              refine ih _ true hrest hna2 (inv_step_thought_mid s t hI) ?_ ?_
              · rw [stepEvent_aborted, hab, ht]
                rfl
              · exact ((stepEvent_preserves_of_not_tool s _ ht).2.2.1).trans hend
            · subst ho; subst ha; subst hb; subst hT
              refine ih _ false hrest hna2 (inv_step_thought_close s hI) ?_ ?_
              · rw [stepEvent_aborted, hab, ht]
                rfl
              · exact ((stepEvent_preserves_of_not_tool s _ ht).2.2.1).trans hend
        | otherChunk =>
            rw [List.foldl_cons]
            exact ih s topen (by simpa [thoughtOk] using hw) hna2 hI hab hend
        | toolInvoke n p => simp [rtIsToolInvoke] at ht

/-- The stream-closing logic preserves the event-sequence invariants:
the final event list is either the folded events as they stand, or (when
generation completed without a tool firing) the folded events followed
by the force-close of an open text stream and a stop finish. -/
theorem inv_closeout (s : StreamState) (topen2 : Bool) (hInv : Inv s topen2)
    (L : List StreamEvent)
    (hL : L = s.events
      ∨ (s.toolCallAborted = false ∧ s.textEndSent = false
          ∧ ((s.textStartSent = true
              ∧ L = (s.events ++ [StreamEvent.textEnd textId])
                  ++ [StreamEvent.finish "stop"])
            ∨ (s.textStartSent = false
              ∧ L = s.events ++ [StreamEvent.finish "stop"])))) :
    (brkRun false (projId textId L)).isSome = true
    ∧ (brkRun false (projId reasoningId L)).isSome = true
    ∧ (∀ e ∈ L, idOk e = true)
    ∧ FinPre L
    ∧ (s.textStartSent = false →
        L.countP isTextStartEv = 0 ∧ L.countP isTextEndEv = 0) := by
  rcases hL with hL | ⟨hab, hend, ⟨hst, hL⟩ | ⟨hst, hL⟩⟩
  · subst hL
    refine ⟨?_, ?_, hInv.ids, hInv.finPre, ?_⟩
    · rw [hInv.tb]
      rfl
    · rw [hInv.rb]
      rfl
    · intro h
      have he : s.textEndSent = false := by
        cases hee : s.textEndSent
        · rfl
        · rw [hInv.endStart hee] at h
          exact Bool.noConfusion h
      refine ⟨?_, ?_⟩
      · rw [hInv.tsCnt, h]
        rfl
      · rw [hInv.teCnt, he]
        rfl
  · subst hL
    refine ⟨?_, ?_, ?_, ?_, ?_⟩
    · rw [List.append_assoc, projId_append, brkRun_append, hInv.tb, hst, hend]
      rfl
    · rw [List.append_assoc, projId_append, brkRun_append, hInv.rb]
      cases topen2 <;> rfl
    · intro e he
      rcases List.mem_append.mp he with h | h
      · rcases List.mem_append.mp h with h2 | h2
        · exact hInv.ids e h2
        · rw [List.mem_singleton.mp h2]
          rfl
      · rw [List.mem_singleton.mp h]
        rfl
    · refine finPre_append _ _ ?_ ?_
      · refine finPre_append_nofin _ _ hInv.finPre ?_
        intro e he
        rw [List.mem_singleton.mp he]
        rfl
      · intro n r hn
        match n with
        | 0 =>
            show (s.events ++ [StreamEvent.textEnd textId]).countP isTextStartEv + _
              = (s.events ++ [StreamEvent.textEnd textId]).countP isTextEndEv + _
            rw [List.countP_append, List.countP_append, hInv.tsCnt, hInv.teCnt,
              hst, hend]
            rfl
        | (m + 1) => exact absurd hn (by simp [List.get?])
    · intro h
      rw [hst] at h
      exact Bool.noConfusion h
  · subst hL
    refine ⟨?_, ?_, ?_, ?_, ?_⟩
    · rw [projId_append, brkRun_append, hInv.tb, hst, hend]
      rfl
    · rw [projId_append, brkRun_append, hInv.rb]
      cases topen2 <;> rfl
    · intro e he
      rcases List.mem_append.mp he with h | h
      · exact hInv.ids e h
      · rw [List.mem_singleton.mp h]
        rfl
    · refine finPre_append _ _ hInv.finPre ?_
      intro n r hn
      match n with
      | 0 =>
          show s.events.countP isTextStartEv + _ = s.events.countP isTextEndEv + _
          rw [hInv.tsCnt, hInv.teCnt, hst, hend]
          rfl
      | (m + 1) => exact absurd hn (by simp [List.get?])
    · intro h
      refine ⟨?_, ?_⟩
      · rw [List.countP_append, hInv.tsCnt, hst]
        rfl
      · rw [List.countP_append, hInv.teCnt, hend]
        rfl

/-! ## C5 -/

/-- C5: under well-formed runtime callbacks, the emitted sequence keeps
the stream lifecycle discipline: per id, starts precede deltas precede
ends (the projection is accepted by the bracket automaton); text events
carry only the one text id and reasoning events only the one reasoning
id; before every finish event the text stream is closed; if no text
fragment was produced there is no text-start and no text-end at all; and
a completed run without a tool firing still ends in a stop finish. -/
theorem C5_stream_invariants (tr : RtTrace)
    (hw : thoughtOk false tr.events = true)
    (hna : noEventAfterTool tr.events = true) :
    (brkRun false (projId textId (doStreamEvents tr).1)).isSome = true
    ∧ (brkRun false (projId reasoningId (doStreamEvents tr).1)).isSome = true
    ∧ (∀ e ∈ (doStreamEvents tr).1, idOk e = true)
    ∧ (∀ n r, ((doStreamEvents tr).1).get? n = some (StreamEvent.finish r) →
        (((doStreamEvents tr).1).take n).countP isTextStartEv
          = (((doStreamEvents tr).1).take n).countP isTextEndEv)
    ∧ (noTextProduced tr.events = true →
        ((doStreamEvents tr).1).countP isTextStartEv = 0
        ∧ ((doStreamEvents tr).1).countP isTextEndEv = 0)
    ∧ (∀ ft, tr.result = RtResult.success ft →
        tr.events.any rtIsToolInvoke = false →
        ((doStreamEvents tr).1).getLast? = some (StreamEvent.finish "stop")) := by
  obtain ⟨topen2, hInv⟩ :=
    fold_inv tr.events initStreamState false hw hna inv_init rfl rfl
  have hEndNoFire : tr.events.any rtIsToolInvoke = false →
      (tr.events.foldl stepEvent initStreamState).textEndSent = false := by
    intro hf
    have hall : ∀ e ∈ tr.events, rtIsToolInvoke e = false := by
      intro e he
      have := List.any_eq_false.mp hf e he
      simpa using this
    exact ((fold_no_tool tr.events initStreamState hall).2.2.1).trans rfl
  have hshape : (doStreamEvents tr).1
        = (tr.events.foldl stepEvent initStreamState).events
      ∨ ((tr.events.foldl stepEvent initStreamState).toolCallAborted = false
        ∧ (tr.events.foldl stepEvent initStreamState).textEndSent = false
        ∧ (((tr.events.foldl stepEvent initStreamState).textStartSent = true
            ∧ (doStreamEvents tr).1
              = ((tr.events.foldl stepEvent initStreamState).events
                  ++ [StreamEvent.textEnd textId]) ++ [StreamEvent.finish "stop"])
          ∨ ((tr.events.foldl stepEvent initStreamState).textStartSent = false
            ∧ (doStreamEvents tr).1
              = (tr.events.foldl stepEvent initStreamState).events
                  ++ [StreamEvent.finish "stop"]))) := by
    cases htr : tr.result with
    | failure err =>
        left
        cases hA : (tr.events.foldl stepEvent initStreamState).toolCallAborted <;>
          simp [doStreamEvents, htr, hA]
    | success ft =>
        cases hA : (tr.events.foldl stepEvent initStreamState).toolCallAborted with
        | true =>
            left
            simp [doStreamEvents, htr, hA]
        | false =>
            right
            have hfired : tr.events.any rtIsToolInvoke = false := by
              have := fold_aborted tr.events initStreamState
              rw [hA] at this
              simpa [initStreamState] using this.symm
            have hend2 := hEndNoFire hfired
            refine ⟨rfl, hend2, ?_⟩
            cases hst : (tr.events.foldl stepEvent initStreamState).textStartSent with
            | true =>
                left
                refine ⟨rfl, ?_⟩
                simp [doStreamEvents, htr, hA, hst, hend2]
            | false =>
                right
                refine ⟨rfl, ?_⟩
                simp [doStreamEvents, htr, hA, hst, hend2]
  obtain ⟨c1, c2, c3, c4, c5⟩ :=
    inv_closeout (tr.events.foldl stepEvent initStreamState) topen2 hInv
      (doStreamEvents tr).1 hshape
  refine ⟨c1, c2, c3, c4, ?_, ?_⟩
  · intro hnt
    exact c5 ((fold_textStartSent_of_silent tr.events initStreamState hnt).trans rfl)
  · intro ft htr hfired
    have hA : (tr.events.foldl stepEvent initStreamState).toolCallAborted = false := by
      rw [fold_aborted tr.events initStreamState]
      rw [hfired]
      rfl
    have hend2 := hEndNoFire hfired
    cases hst : (tr.events.foldl stepEvent initStreamState).textStartSent with
    | true =>
        have h1 : (doStreamEvents tr).1
            = ((tr.events.foldl stepEvent initStreamState).events
                ++ [StreamEvent.textEnd textId]) ++ [StreamEvent.finish "stop"] := by
          simp [doStreamEvents, htr, hA, hst, hend2]
        rw [h1, List.getLast?_concat]
    | false =>
        have h1 : (doStreamEvents tr).1
            = (tr.events.foldl stepEvent initStreamState).events
                ++ [StreamEvent.finish "stop"] := by
          simp [doStreamEvents, htr, hA, hst, hend2]
        rw [h1, List.getLast?_concat]

/-- C5 witness: the invariants evaluated on a concrete run with one
text fragment and one thought segment. -/
theorem C5_stream_invariants_witness :
    (brkRun false (projId textId
      (doStreamEvents ⟨[.thoughtChunk true false "why", .thoughtChunk false true "",
        .textChunk "hi"], .success "hi"⟩).1)).isSome = true
    ∧ ((doStreamEvents ⟨[.thoughtChunk true false "why", .thoughtChunk false true "",
        .textChunk "hi"], .success "hi"⟩).1).getLast?
      = some (StreamEvent.finish "stop") :=
  ⟨(C5_stream_invariants ⟨[.thoughtChunk true false "why", .thoughtChunk false true "",
      .textChunk "hi"], .success "hi"⟩ rfl rfl).1,
   (C5_stream_invariants ⟨[.thoughtChunk true false "why", .thoughtChunk false true "",
      .textChunk "hi"], .success "hi"⟩ rfl rfl).2.2.2.2.2 "hi" rfl rfl⟩

/-! ## C1 -/

/-- C1 counterexample: the claim that a tool firing before any text
delta yields exactly the two events tool-call and finish fails when the
model emitted reasoning first: on this trace the tool fires before any
text delta, yet the sequence has four events and begins with a
reasoning-start. -/
theorem C1_counterexample :
    (doStreamEvents exThoughtThenTool).1
      = [StreamEvent.reasoningStart reasoningId,
         StreamEvent.reasoningDelta reasoningId "think",
         StreamEvent.toolCall 2 "X" (jsonStringify (.num 7)),
         StreamEvent.finish "tool-calls"]
    ∧ ((doStreamEvents exThoughtThenTool).1).length = 4 :=
  ⟨rfl, rfl⟩

/-- C1 (amended): when the wrapped handler fires (once, as the
cancellation policy ensures), the emitted sequence is the events so far,
then a text-end exactly when a text stream is open, then one tool-call
carrying a fresh call id, the tool name and the JSON-serialized
parameters, then finish with reason tool-calls; the stream closes with
nothing further regardless of how the generation call terminates, and no
tool-call or finish event was emitted before; when the tool fires as the
very first runtime callback the whole sequence is exactly
[tool-call, finish]. -/
theorem C1_tool_fire_tail (pre : List RtEvent) (name : String)
    (params : JsValue) (res : RtResult)
    (hpre : ∀ e ∈ pre, rtIsToolInvoke e = false) :
    (doStreamEvents ⟨pre ++ [.toolInvoke name params], res⟩).1
      = (pre.foldl stepEvent initStreamState).events
        ++ ((if (pre.foldl stepEvent initStreamState).textStartSent then
              [StreamEvent.textEnd textId] else [])
          ++ [StreamEvent.toolCall (pre.foldl stepEvent initStreamState).nextCallId
                name (jsonStringify params),
              StreamEvent.finish "tool-calls"])
    ∧ (doStreamEvents ⟨pre ++ [.toolInvoke name params], res⟩).2
        = StreamOutcome.closed
    ∧ ((pre.foldl stepEvent initStreamState).events).countP isToolCallEv = 0
    ∧ ((pre.foldl stepEvent initStreamState).events).countP isFinishEv = 0
    ∧ (pre.foldl stepEvent initStreamState).nextCallId = 2
    ∧ (pre = [] →
        (doStreamEvents ⟨[.toolInvoke name params], res⟩).1
          = [StreamEvent.toolCall 2 name (jsonStringify params),
             StreamEvent.finish "tool-calls"]) := by
  obtain ⟨q1, q2, q3, q4, q5⟩ := fold_no_tool pre initStreamState hpre
  have hend : (pre.foldl stepEvent initStreamState).textEndSent = false :=
    q3.trans rfl
  have hstep := stepEvent_tool (pre.foldl stepEvent initStreamState) name params hend
  have hfold : (pre ++ [RtEvent.toolInvoke name params]).foldl stepEvent initStreamState
      = stepEvent (pre.foldl stepEvent initStreamState) (.toolInvoke name params) := by
    rw [List.foldl_append]
    rfl
  have haborted :
      (stepEvent (pre.foldl stepEvent initStreamState)
        (.toolInvoke name params)).toolCallAborted = true := by
    rw [hstep]
  have hrun : doStreamEvents ⟨pre ++ [.toolInvoke name params], res⟩
      = ((stepEvent (pre.foldl stepEvent initStreamState)
          (.toolInvoke name params)).events, .closed) := by
    cases res <;> simp [doStreamEvents, hfold, haborted]
  refine ⟨?_, ?_, q4.trans rfl, q5.trans rfl, q2.trans rfl, ?_⟩
  · rw [hrun]
    show (stepEvent (pre.foldl stepEvent initStreamState)
      (.toolInvoke name params)).events = _
    rw [hstep]
  · rw [hrun]
  · intro h
    subst h
    cases res <;> rfl

/-- C1 witness: the amended tail behaviour at concrete traces, with and
without preceding text. -/
theorem C1_tool_fire_tail_witness :
    (doStreamEvents ⟨[RtEvent.textChunk "he", .toolInvoke "X" (.num 1)],
        .failure "err"⟩).2 = StreamOutcome.closed
    ∧ (doStreamEvents ⟨[RtEvent.toolInvoke "X" (.num 1)], .success ""⟩).1
      = [StreamEvent.toolCall 2 "X" (jsonStringify (.num 1)),
         StreamEvent.finish "tool-calls"] :=
  ⟨(C1_tool_fire_tail [.textChunk "he"] "X" (.num 1) (.failure "err")
      (fun e he => by rw [List.mem_singleton.mp he]; rfl)).2.1,
   (C1_tool_fire_tail [] "X" (.num 1) (.success "")
      (fun e he => absurd he (List.not_mem_nil e))).2.2.2.2.2 rfl⟩

/-! ## C2 -/

/-- C2: when the generation call rejects after a tool has fired (the
cancellation path), the error is swallowed and the stream closes
normally; when it rejects with no tool having fired, the error surfaces
as the terminal outcome and no finish event is emitted. -/
theorem C2_error_handling (evs : List RtEvent) (err : String) :
    (evs.any rtIsToolInvoke = true →
      (doStreamEvents ⟨evs, .failure err⟩).2 = StreamOutcome.closed)
    ∧ (evs.any rtIsToolInvoke = false →
      (doStreamEvents ⟨evs, .failure err⟩).2 = StreamOutcome.errored err
      ∧ ((doStreamEvents ⟨evs, .failure err⟩).1).countP isFinishEv = 0) := by
  constructor
  · intro h
    have hA : (evs.foldl stepEvent initStreamState).toolCallAborted = true := by
      rw [fold_aborted evs initStreamState, h]
      rfl
    simp [doStreamEvents, hA]
  · intro h
    have hall : ∀ e ∈ evs, rtIsToolInvoke e = false := by
      intro e he
      have := List.any_eq_false.mp h e he
      simpa using this
    obtain ⟨q1, _, _, _, q5⟩ := fold_no_tool evs initStreamState hall
    have hA : (evs.foldl stepEvent initStreamState).toolCallAborted = false :=
      q1.trans rfl
    constructor
    · simp [doStreamEvents, hA]
    · have h1 : (doStreamEvents ⟨evs, .failure err⟩).1
          = (evs.foldl stepEvent initStreamState).events := by
        simp [doStreamEvents, hA]
      rw [h1]
      exact q5.trans rfl

/-- C2 witness: a rejecting run with a fired tool closes normally; a
rejecting run without one surfaces the error and emits no finish. -/
theorem C2_error_handling_witness :
    (doStreamEvents ⟨[RtEvent.toolInvoke "X" (.num 1)], .failure "boom"⟩).2
      = StreamOutcome.closed
    ∧ (doStreamEvents ⟨[RtEvent.textChunk "hi"], .failure "boom"⟩).2
      = StreamOutcome.errored "boom" :=
  ⟨(C2_error_handling [.toolInvoke "X" (.num 1)] "boom").1 rfl,
   ((C2_error_handling [.textChunk "hi"] "boom").2 rfl).1⟩

/-! ## C8 -/

/-- The recorded tool calls of the non-streaming fold are exactly the
fired tool invocations of the trace, in order, with consecutively drawn
call ids. -/
theorem gen_fold_map (evs : List RtEvent) :
    ∀ s : GenState,
      ((evs.foldl genStep s).toolCalls).map
          (fun tc => GenContentPart.toolCall tc.2.2 tc.1 tc.2.1)
        = s.toolCalls.map (fun tc => GenContentPart.toolCall tc.2.2 tc.1 tc.2.1)
          ++ firedCallsFrom s.nextCallId evs := by
  induction evs with
  | nil => intro s; simp [firedCallsFrom]
  | cons e rest ih =>
      intro s
      cases e with
      | toolInvoke n p =>
          rw [List.foldl_cons, ih]
          simp [genStep, firedCallsFrom]
      | textChunk c =>
          rw [List.foldl_cons, ih]
          rfl
      | thoughtChunk a b t =>
          rw [List.foldl_cons, ih]
          rfl
      | otherChunk =>
          rw [List.foldl_cons, ih]
          rfl

/-- The fired-call extraction is empty exactly when no tool fired. -/
theorem firedCallsFrom_eq_nil (evs : List RtEvent) :
    ∀ cid, (firedCallsFrom cid evs = [] ↔ evs.any rtIsToolInvoke = false) := by
  induction evs with
  | nil => intro cid; simp [firedCallsFrom]
  | cons e rest ih =>
      intro cid
      cases e with
      | toolInvoke n p => simp [firedCallsFrom, rtIsToolInvoke]
      | textChunk c => simp [firedCallsFrom, rtIsToolInvoke, ih]
      | thoughtChunk a b t => simp [firedCallsFrom, rtIsToolInvoke, ih]
      | otherChunk => simp [firedCallsFrom, rtIsToolInvoke, ih]

/-- C8 counterexample: the claim that doGenerate handles the incoming
Conversation like doStream fails: on a continuation conversation (a tool
result followed by a user message) doStream installs the translated
history and blanks the prompt, while doGenerate installs nothing and
prompts with the final message text. -/
theorem C8_counterexample :
    (doGenerateSetup exContinuationPrompt).promptText = "hi"
    ∧ (doStreamSetup exContinuationPrompt).promptText = ""
    ∧ (doGenerateSetup exContinuationPrompt).installedHistory = none
    ∧ (doStreamSetup exContinuationPrompt).installedHistory
        = some (convertToLlamaChatHistory exContinuationPrompt)
    ∧ doGenerateSetup exContinuationPrompt ≠ doStreamSetup exContinuationPrompt := by
  refine ⟨rfl, rfl, rfl, rfl, fun h => ?_⟩
  exact absurd (congrArg StreamSetup.promptText h) (by decide)

/-- C8 (amended): the non-streaming variant returns the final response
text with reason stop when no tool fired, and the list of tool calls
that fired (in order, with fresh ids) with reason tool-calls otherwise;
but unlike the streaming variant it never installs history on the
session and always derives its prompt from the final message. -/
theorem C8_doGenerate_result (evs : List RtEvent) (ft : String) :
    (evs.any rtIsToolInvoke = false →
      doGenerateOutcome evs ft
        = { content := [.text ft], finishReason := "stop" })
    ∧ (evs.any rtIsToolInvoke = true →
      doGenerateOutcome evs ft
        = { content := firedCallsFrom 0 evs, finishReason := "tool-calls" })
    ∧ (∀ prompt : List Message,
        (doGenerateSetup prompt).installedHistory = none
        ∧ (doGenerateSetup prompt).promptText = extractPromptText prompt) := by
  have hmap := gen_fold_map evs { toolCalls := [], nextCallId := 0 }
  rw [List.map_nil, List.nil_append] at hmap
  refine ⟨?_, ?_, fun prompt => ⟨rfl, rfl⟩⟩
  · intro h
    have hnil : (evs.foldl genStep { toolCalls := [], nextCallId := 0 }).toolCalls
        = [] := by
      have h2 : firedCallsFrom 0 evs = [] := (firedCallsFrom_eq_nil evs 0).mpr h
      rw [h2] at hmap
      exact List.map_eq_nil.mp hmap
    simp [doGenerateOutcome, hnil]
  · intro h
    have hne : ¬ (evs.foldl genStep { toolCalls := [], nextCallId := 0 }).toolCalls
        = [] := by
      intro hnil
      have : firedCallsFrom 0 evs = [] := by
        rw [← hmap, hnil, List.map_nil]
      rw [(firedCallsFrom_eq_nil evs 0).mp this] at h
      exact Bool.noConfusion h
    have hempty : (evs.foldl genStep
        { toolCalls := [], nextCallId := 0 }).toolCalls.isEmpty = false := by
      rcases hc : (evs.foldl genStep { toolCalls := [], nextCallId := 0 }).toolCalls with
        _ | ⟨x, xs⟩
      · exact absurd hc hne
      · rfl
    simp only [doGenerateOutcome, hempty]
    rw [if_neg (by simp [hempty])]
    rw [hmap]

/-- C8 witness: the non-streaming result at concrete traces, with and
without a fired tool. -/
theorem C8_doGenerate_result_witness :
    doGenerateOutcome [RtEvent.textChunk "4"] "4"
      = { content := [.text "4"], finishReason := "stop" }
    ∧ doGenerateOutcome [RtEvent.toolInvoke "X" (.num 1)] ""
      = { content := firedCallsFrom 0 [RtEvent.toolInvoke "X" (.num 1)],
          finishReason := "tool-calls" } :=
  ⟨(C8_doGenerate_result [.textChunk "4"] "4").1 rfl,
   (C8_doGenerate_result [.toolInvoke "X" (.num 1)] "").2.1 rfl⟩

/-! ## Session Manager lemmas -/

/-- Structural facts about one run of the initialization steps: the
memoized promise and attempt counter are untouched, at most one model
load happens, success leaves a session behind, and failure leaves the
session as it was. -/
theorem runSteps_facts (env : InitEnv) (st : ProviderState) :
    ((runSteps env st).1).initPromise = st.initPromise
    ∧ ((runSteps env st).1).attempts = st.attempts
    ∧ ((runSteps env st).1).loadCount ≤ st.loadCount + 1
    ∧ ((runSteps env st).2 = .ok () → ((runSteps env st).1).session.isSome = true)
    ∧ (∀ e : String, (runSteps env st).2 = .error e →
        ((runSteps env st).1).session = st.session) := by
  rcases h1 : env.acquireRuntime with e1 | u1 <;>
    rcases h2 : env.resolveModel with e2 | p2 <;>
      rcases h3 : st.llamaModel with _ | m3 <;>
        rcases h4 : env.loadModel with e4 | m4 <;>
          rcases h5 : st.llamaContext with _ | c5 <;>
            rcases h6 : env.createContext with e6 | c6 <;>
              simp [runSteps, stepsAfterModel, h1, h2, h3, h4, h5, h6]

/-- Once a session or a settled promise exists, `getSession` no longer
mutates the provider state. -/
theorem getSession_state_stable (envs : Nat → InitEnv) (st : ProviderState)
    (h : st.session.isSome = true ∨ st.initPromise.isSome = true) :
    (getSession envs st).1 = st := by
  rcases hs : st.session with _ | sid
  · rcases hp : st.initPromise with _ | out
    · rcases h with h | h
      · rw [hs] at h
        exact Bool.noConfusion h
      · rw [hp] at h
        exact Bool.noConfusion h
    · rcases out with e | u <;> simp [getSession, initSession, hs, hp]
  · simp [getSession, initSession, hs]

/-- `getSession` is idempotent: a second call observes the state the
first call left behind and returns the very same outcome — in
particular, a failed initialization is cached and never retried. -/
theorem getSession_idem (envs : Nat → InitEnv) (st : ProviderState) :
    getSession envs ((getSession envs st).1) = getSession envs st := by
  rcases hs : st.session with _ | sid
  · rcases hp : st.initPromise with _ | out
    · rcases hrs : runSteps (envs st.attempts) { st with attempts := st.attempts + 1 }
        with ⟨st1, out⟩
      obtain ⟨hip, hat, hlc, hok, herr⟩ :=
        runSteps_facts (envs st.attempts) { st with attempts := st.attempts + 1 }
      rw [hrs] at hip hat hlc hok herr
      simp only at hip hat hlc hok herr
      simp only [hs, hp] at hrs
      rcases out with e | u
      · have hsess1 : st1.session = none := by
          rw [herr e rfl]
          exact hs
        have hcall1 : getSession envs st =
            ({ st1 with initPromise := some (.error e) }, .error e) := by
          simp [getSession, initSession, hs, hp, hrs]
        rw [hcall1]
        simp [getSession, initSession, hsess1]
      · rcases u
        have hsess1 := hok rfl
        rcases hs1 : st1.session with _ | sid1
        · rw [hs1] at hsess1
          exact Bool.noConfusion hsess1
        · have hcall1 : getSession envs st =
              ({ st1 with initPromise := some (.ok ()) }, .ok sid1) := by
            simp [getSession, initSession, hs, hp, hrs, hs1]
          rw [hcall1]
          simp [getSession, initSession, hs1]
    · rcases out with e | u
      · simp [getSession, initSession, hs, hp]
      · simp [getSession, initSession, hs, hp]
  · simp [getSession, initSession, hs]

/-- The state after the first `getSession` call is a fixpoint and its
load counter is at most one. -/
theorem getSession_first_facts (envs : Nat → InitEnv) (cfg : ProviderConfig) :
    ((getSession envs (mkProviderState cfg)).1).loadCount ≤ 1
    ∧ (getSession envs ((getSession envs (mkProviderState cfg)).1)).1
        = (getSession envs (mkProviderState cfg)).1
    ∧ (getSession envs ((getSession envs (mkProviderState cfg)).1)).2
        = (getSession envs (mkProviderState cfg)).2 := by
  refine ⟨?_, congrArg Prod.fst (getSession_idem envs (mkProviderState cfg)),
    congrArg Prod.snd (getSession_idem envs (mkProviderState cfg))⟩
  rcases hs : cfg.injectedSession with _ | sid
  · rcases hrs : runSteps (envs 0) { mkProviderState cfg with attempts := 1 }
      with ⟨st1, out⟩
    obtain ⟨hip, hat, hlc, hok, herr⟩ :=
      runSteps_facts (envs 0) { mkProviderState cfg with attempts := 1 }
    rw [hrs] at hip hat hlc hok herr
    simp only at hip hat hlc hok herr
    have hlc2 : st1.loadCount ≤ 1 := by
      simpa [mkProviderState] using hlc
    have hs0 : (mkProviderState cfg).session = none := hs
    have hp0 : (mkProviderState cfg).initPromise = none := rfl
    have hat0 : (mkProviderState cfg).attempts = 0 := rfl
    simp only [mkProviderState, hs] at hrs
    rcases out with e | u
    · have hcall1 : getSession envs (mkProviderState cfg) =
          ({ st1 with initPromise := some (.error e) }, .error e) := by
        simp [getSession, initSession, mkProviderState, hs, hrs]
      rw [hcall1]
      exact hlc2
    · rcases u
      rcases hs1 : st1.session with _ | sid1
      · have := hok rfl
        rw [hs1] at this
        exact Bool.noConfusion this
      · have hcall1 : getSession envs (mkProviderState cfg) =
            ({ st1 with initPromise := some (.ok ()) }, .ok sid1) := by
          simp [getSession, initSession, mkProviderState, hs, hrs, hs1]
        rw [hcall1]
        exact hlc2
  · have hcall1 : getSession envs (mkProviderState cfg)
        = (mkProviderState cfg, .ok sid) := by
      simp [getSession, initSession, mkProviderState, hs]
    rw [hcall1]
    exact Nat.zero_le 1

/-- A `getSession` fixpoint state turns the whole call trace into a
constant sequence. -/
theorem getSessionTrace_const (envs : Nat → InitEnv) (st : ProviderState)
    (hfix : (getSession envs st).1 = st) :
    ∀ n : Nat, getSessionTrace envs st n
      = (List.replicate n (getSession envs st).2, st) := by
  intro n
  induction n with
  | zero => rfl
  | succ m ih =>
      show ((getSession envs st).2
            :: (getSessionTrace envs ((getSession envs st).1) m).1,
            (getSessionTrace envs ((getSession envs st).1) m).2)
          = (List.replicate (m + 1) (getSession envs st).2, st)
      rw [hfix, ih]
      rfl

/-! ## C7 -/

/-- C7: initialization is idempotent and single-flight: over any number
of `getSession` calls the model-load step runs at most once, every call
resolves to the same outcome (in particular the same session), and with
a session injected at construction time no loading happens at all and
the state never changes. -/
theorem C7_single_flight (cfg : ProviderConfig) (envs : Nat → InitEnv) (n : Nat) :
    ((getSessionTrace envs (mkProviderState cfg) n).2).loadCount ≤ 1
    ∧ (∀ r ∈ (getSessionTrace envs (mkProviderState cfg) n).1,
        ∀ q ∈ (getSessionTrace envs (mkProviderState cfg) n).1, r = q)
    ∧ (∀ sid, cfg.injectedSession = some sid →
        (getSessionTrace envs (mkProviderState cfg) n).2 = mkProviderState cfg
        ∧ ∀ r ∈ (getSessionTrace envs (mkProviderState cfg) n).1,
            r = .ok sid) := by
  obtain ⟨hlc, hfix, hsame⟩ := getSession_first_facts envs cfg
  cases n with
  | zero =>
      refine ⟨?_, ?_, ?_⟩
      · show (mkProviderState cfg).loadCount ≤ 1
        exact Nat.zero_le 1
      · intro r hr
        exact absurd hr (List.not_mem_nil r)
      · intro sid hsid
        exact ⟨rfl, fun r hr => absurd hr (List.not_mem_nil r)⟩
  | succ m =>
      have htr := getSessionTrace_const envs
        ((getSession envs (mkProviderState cfg)).1) hfix m
      have hstep : getSessionTrace envs (mkProviderState cfg) (m + 1)
          = ((getSession envs (mkProviderState cfg)).2
              :: (getSessionTrace envs
                    ((getSession envs (mkProviderState cfg)).1) m).1,
             (getSessionTrace envs
                ((getSession envs (mkProviderState cfg)).1) m).2) := rfl
      rw [htr] at hstep
      rw [hsame] at hstep
      refine ⟨?_, ?_, ?_⟩
      · rw [hstep]
        exact hlc
      · rw [hstep]
        intro r hr q hq
        have hr2 : r = (getSession envs (mkProviderState cfg)).2 := by
          rcases List.mem_cons.mp hr with h | h
          · exact h
          · exact List.eq_of_mem_replicate h
        have hq2 : q = (getSession envs (mkProviderState cfg)).2 := by
          rcases List.mem_cons.mp hq with h | h
          · exact h
          · exact List.eq_of_mem_replicate h
        rw [hr2, hq2]
      · intro sid hsid
        have hcall : getSession envs (mkProviderState cfg)
            = (mkProviderState cfg, .ok sid) := by
          simp [getSession, initSession, mkProviderState, hsid]
        rw [hstep, hcall]
        refine ⟨rfl, ?_⟩
        intro r hr
        rcases List.mem_cons.mp hr with h | h
        · exact h
        · exact List.eq_of_mem_replicate h

/-- C7 witness: two calls against a provider with an injected session
load nothing, change nothing and both return the injected session. -/
theorem C7_single_flight_witness :
    ((getSessionTrace (fun _ => envOk)
        (mkProviderState ⟨some 5, none, none⟩) 2).2).loadCount ≤ 1
    ∧ ((getSessionTrace (fun _ => envOk)
          (mkProviderState ⟨some 5, none, none⟩) 2).2
        = mkProviderState ⟨some 5, none, none⟩
      ∧ ∀ r ∈ (getSessionTrace (fun _ => envOk)
          (mkProviderState ⟨some 5, none, none⟩) 2).1, r = .ok 5) :=
  ⟨(C7_single_flight ⟨some 5, none, none⟩ (fun _ => envOk) 2).1,
   (C7_single_flight ⟨some 5, none, none⟩ (fun _ => envOk) 2).2.2 5 rfl⟩

/-! ## C6 -/

/-- C6 counterexample: with a first attempt failing at model load and
every later attempt able to succeed, the first `getSession` call fails
with the load error — but the second call returns the very same cached
failure (the memoized promise is never cleared), even though running the
initialization steps afresh at that point would succeed, contradicting
the claim that the next call retries. -/
theorem C6_counterexample :
    (getSession envsRetry (mkProviderState cfgPlain)).2 = .error "load failed"
    ∧ (getSession envsRetry
        ((getSession envsRetry (mkProviderState cfgPlain)).1)).2
      = .error "load failed"
    ∧ ((getSession envsRetry
        ((getSession envsRetry (mkProviderState cfgPlain)).1)).1).attempts = 1
    ∧ (runSteps (envsRetry 1)
        { (getSession envsRetry (mkProviderState cfgPlain)).1 with
          attempts := 2 }).2 = .ok () :=
  ⟨rfl, rfl, rfl, rfl⟩

/-- C6 (amended): a failure in any initialization step propagates to the
caller of `getSession`, but a subsequent call does not retry: it returns
the same memoized failure and leaves the provider state untouched. -/
theorem C6_failure_cached (envs : Nat → InitEnv) (cfg : ProviderConfig)
    (e : String) :
    (cfg.injectedSession = none →
      (runSteps (envs 0) { mkProviderState cfg with attempts := 1 }).2
        = .error e →
      (getSession envs (mkProviderState cfg)).2 = .error e)
    ∧ ((getSession envs (mkProviderState cfg)).2 = .error e →
      getSession envs ((getSession envs (mkProviderState cfg)).1)
        = ((getSession envs (mkProviderState cfg)).1, .error e)) := by
  constructor
  · intro hs hfail
    rcases hrs : runSteps (envs 0) { mkProviderState cfg with attempts := 1 }
      with ⟨st1, out⟩
    rw [hrs] at hfail
    simp only at hfail
    subst hfail
    simp only [mkProviderState, hs] at hrs
    have hcall1 : getSession envs (mkProviderState cfg) =
        ({ st1 with initPromise := some (.error e) }, .error e) := by
      simp [getSession, initSession, mkProviderState, hs, hrs]
    rw [hcall1]
  · intro hfail
    rw [getSession_idem envs (mkProviderState cfg)]
    exact Prod.ext rfl hfail

/-- C6 witness: the amended behaviour on the retry environment — the
first call errors and the second returns the identical cached error with
an unchanged state. -/
theorem C6_failure_cached_witness :
    (getSession envsRetry (mkProviderState cfgPlain)).2 = .error "load failed"
    ∧ getSession envsRetry ((getSession envsRetry (mkProviderState cfgPlain)).1)
      = ((getSession envsRetry (mkProviderState cfgPlain)).1,
         .error "load failed") :=
  ⟨(C6_failure_cached envsRetry cfgPlain "load failed").1 rfl rfl,
   (C6_failure_cached envsRetry cfgPlain "load failed").2 rfl⟩

end NodeLlamaCpp
